import Mathlib

/-!
Verification of the OpenMLDB streaming pre-aggregation engine
(src/storage/aggregator.cc) against its natural-language specification.

The C++ source is shallowly embedded as follows.

* Machine integers (`int16_t`, `int32_t`, `int64_t`, `uint64_t`) are modelled
  as `Int` or `Nat`.  Signed overflow is undefined behaviour in C++, so the
  defined executions of the source coincide with the unbounded model; no claim
  in scope exercises an overflowing execution.
* `float` and `double` accumulators are modelled as `Rat`.  IEEE-754 rounding
  is not modelled; no claim in scope depends on a float arithmetic result.
* The packed row codec is external to the core (the spec lists it as an
  external collaborator).  A base-table row is represented by the only two
  pieces the aggregator reads from it: the timestamp column value and the
  aggregate column value (an `Option` of the scalar for the declared column
  type, `none` meaning SQL NULL).  The encoded field 4 of an aggregate-table
  row is represented by the tagged value `EncVal` instead of raw bytes; the
  tags record exactly what the per-kernel encoders write.
* The aggregate table and its traverse iterator are external collaborators;
  they are modelled from the spec as a list of flushed rows, newest first,
  with `seekLatest` implementing the documented Seek(key, ts+1) behaviour.
* The per-key mutex discipline is not modelled: all claims in scope are about
  the sequential semantics of a single bucket stream, which the spec states
  is the serialisation order induced by the bucket mutex.
-/

namespace OpenMLDBAggr

/-- Column data types of the row codec that the aggregator distinguishes. -/
inductive DataType
  | kBool
  | kSmallInt
  | kInt
  | kBigInt
  | kTimestamp
  | kDate
  | kFloat
  | kDouble
  | kString
  | kVarchar
  deriving DecidableEq, Repr

/-- Aggregate function kinds, as in the `AggrType` enum of the source. -/
inductive AggrType
  | kSum
  | kMin
  | kMax
  | kCount
  | kAvg
  | kCountWhere
  deriving DecidableEq, Repr

/-- Window kinds, as in the `WindowType` enum of the source. -/
inductive WindowType
  | kRowsNum
  | kRowsRange
  deriving DecidableEq, Repr

/-- Aggregator status, as in the `AggrStat` enum of the source. -/
inductive AggrStat
  | kUnInit
  | kRecovering
  | kInited
  deriving DecidableEq, Repr

/-- The Lean type carrying a non-null value of a column of the given type.
Integer families and date are `Int`; floats are `Rat` (IEEE rounding not
modelled); strings are `String`. -/
@[reducible] def Scalar : DataType → Type
  | .kBool => Bool
  | .kSmallInt => Int
  | .kInt => Int
  | .kBigInt => Int
  | .kTimestamp => Int
  | .kDate => Int
  | .kFloat => Rat
  | .kDouble => Rat
  | .kString => String
  | .kVarchar => String

/-- The `AggrVal` union of the source.  The C++ union is modelled as a record;
each aggregator only ever reads the arm it writes. -/
structure AggrVal where
  vsmallint : Int := 0
  vint : Int := 0
  vlong : Int := 0
  vfloat : Rat := 0
  vdouble : Rat := 0
  vstring : String := ""
  deriving DecidableEq, Repr

/-- Modelled from the spec: the `AggrBuffer` record of storage/aggregator.h
(the header is not part of the sources given, only its uses are).  Fields and
defaults follow section 3.1 of the spec: `ts_begin = -1` marks an empty or
uninitialised bucket, counters start at zero. -/
structure AggrBuffer where
  data_type : DataType := .kBool
  ts_begin : Int := -1
  ts_end : Int := -1
  aggr_cnt : Int := 0
  aggr_val : AggrVal := {}
  non_null_cnt : Int := 0
  binlog_offset : Nat := 0
  key_end : Nat := 0
  deriving DecidableEq, Repr

/-- Modelled from the spec: `AggrValEmpty` returns true iff the bucket has no
non-null contribution (spec section 4.A). -/
def AggrBuffer.AggrValEmpty (b : AggrBuffer) : Bool :=
  b.non_null_cnt == 0

/-- Modelled from the spec: `clear()` re-initialises the accumulating fields
of a bucket to their defaults; the key split position `key_end` is part of
the bucket identity and survives (flushes after a rollover still split the
bucket key at the same position). -/
def AggrBuffer.clear (b : AggrBuffer) : AggrBuffer :=
  { key_end := b.key_end }

/-- Aggregator configuration: the fields of the `Aggregator` object that the
update path reads (`aggr_type_`, `aggr_col_type_`, `ts_col_type_`,
`window_type_`, `window_size_`, and the `count_all` flag of
`CountAggregator`, true iff `aggr_col == "*"`). -/
structure AggrConfig where
  aggr_type : AggrType
  aggr_col_type : DataType
  ts_col_type : DataType
  window_type : WindowType
  window_size : Nat
  count_all : Bool := false
  deriving DecidableEq, Repr

/-- The encoded `aggr_val` byte string of field 4 of an aggregate-table row,
as a tagged value.  `eInt` stands for a raw integer scalar, `eFloat` and
`eDouble` for raw float scalars, `eStr` for raw string bytes, `eAvg` for the
16-byte concatenation written by the AVG kernel. -/
inductive EncVal
  | eInt (v : Int)
  | eFloat (v : Rat)
  | eDouble (v : Rat)
  | eStr (s : String)
  | eAvg (sum : Rat) (cnt : Int)
  deriving DecidableEq, Repr

/-- An aggregate-table row, positional fields per spec section 3.1.
`aggr_val = none` models field 4 set to NULL. -/
structure FlushedRow where
  key : String
  ts_begin : Int
  ts_end : Int
  aggr_cnt : Int
  aggr_val : Option EncVal
  binlog_offset : Nat
  filter_key : Option String
  deriving DecidableEq, Repr

/-- Modelled from the spec: `base::StringCompare` as used by the MIN and MAX
kernels compares byte-wise lexicographically with ties broken by the shorter
string (spec section 4.C).  Characters stand in for bytes. -/
def strCmp : List Char → List Char → Int
  | [], [] => 0
  | [], _ :: _ => -1
  | _ :: _, [] => 1
  | a :: as, c :: cs =>
      if a.val < c.val then -1 else if c.val < a.val then 1 else strCmp as cs

/-- String comparison entry point used by the MIN and MAX string branches. -/
def stringCompare (a c : String) : Int :=
  strCmp a.toList c.toList

/-- `SumAggregator::UpdateAggrVal`: null input returns true untouched;
small integers, int, timestamp and bigint widen into `vlong`; floats go into
`vfloat` and doubles into `vdouble`; any other column type fails. -/
def sumUpdateAggrVal (ct : DataType) (v : Option (Scalar ct)) (b : AggrBuffer) :
    Bool × AggrBuffer :=
  match ct, v with
  | _, none => (true, b)
  | .kSmallInt, some x =>
      (true, { b with aggr_val := { b.aggr_val with vlong := b.aggr_val.vlong + x },
                      non_null_cnt := b.non_null_cnt + 1 })
  | .kInt, some x =>
      (true, { b with aggr_val := { b.aggr_val with vlong := b.aggr_val.vlong + x },
                      non_null_cnt := b.non_null_cnt + 1 })
  | .kTimestamp, some x =>
      (true, { b with aggr_val := { b.aggr_val with vlong := b.aggr_val.vlong + x },
                      non_null_cnt := b.non_null_cnt + 1 })
  | .kBigInt, some x =>
      (true, { b with aggr_val := { b.aggr_val with vlong := b.aggr_val.vlong + x },
                      non_null_cnt := b.non_null_cnt + 1 })
  | .kFloat, some x =>
      (true, { b with aggr_val := { b.aggr_val with vfloat := b.aggr_val.vfloat + x },
                      non_null_cnt := b.non_null_cnt + 1 })
  | .kDouble, some x =>
      (true, { b with aggr_val := { b.aggr_val with vdouble := b.aggr_val.vdouble + x },
                      non_null_cnt := b.non_null_cnt + 1 })
  | _, some _ => (false, b)

/-- `MinAggregator::UpdateAggrVal`: keeps the smaller value per column type,
treating an empty accumulator as replaceable; null input returns true. -/
def minUpdateAggrVal (ct : DataType) (v : Option (Scalar ct)) (b : AggrBuffer) :
    Bool × AggrBuffer :=
  match ct, v with
  | _, none => (true, b)
  | .kSmallInt, some x =>
      let av := if b.AggrValEmpty = true ∨ x < b.aggr_val.vsmallint then
          { b.aggr_val with vsmallint := x } else b.aggr_val
      (true, { b with aggr_val := av, non_null_cnt := b.non_null_cnt + 1 })
  | .kDate, some x =>
      let av := if b.AggrValEmpty = true ∨ x < b.aggr_val.vint then
          { b.aggr_val with vint := x } else b.aggr_val
      (true, { b with aggr_val := av, non_null_cnt := b.non_null_cnt + 1 })
  | .kInt, some x =>
      let av := if b.AggrValEmpty = true ∨ x < b.aggr_val.vint then
          { b.aggr_val with vint := x } else b.aggr_val
      (true, { b with aggr_val := av, non_null_cnt := b.non_null_cnt + 1 })
  | .kTimestamp, some x =>
      let av := if b.AggrValEmpty = true ∨ x < b.aggr_val.vlong then
          { b.aggr_val with vlong := x } else b.aggr_val
      (true, { b with aggr_val := av, non_null_cnt := b.non_null_cnt + 1 })
  | .kBigInt, some x =>
      let av := if b.AggrValEmpty = true ∨ x < b.aggr_val.vlong then
          { b.aggr_val with vlong := x } else b.aggr_val
      (true, { b with aggr_val := av, non_null_cnt := b.non_null_cnt + 1 })
  | .kFloat, some x =>
      let av := if b.AggrValEmpty = true ∨ x < b.aggr_val.vfloat then
          { b.aggr_val with vfloat := x } else b.aggr_val
      (true, { b with aggr_val := av, non_null_cnt := b.non_null_cnt + 1 })
  | .kDouble, some x =>
      let av := if b.AggrValEmpty = true ∨ x < b.aggr_val.vdouble then
          { b.aggr_val with vdouble := x } else b.aggr_val
      (true, { b with aggr_val := av, non_null_cnt := b.non_null_cnt + 1 })
  | .kString, some s =>
      let av := if b.AggrValEmpty = true ∨ stringCompare s b.aggr_val.vstring < 0 then
          { b.aggr_val with vstring := s } else b.aggr_val
      (true, { b with aggr_val := av, non_null_cnt := b.non_null_cnt + 1 })
  | .kVarchar, some s =>
      let av := if b.AggrValEmpty = true ∨ stringCompare s b.aggr_val.vstring < 0 then
          { b.aggr_val with vstring := s } else b.aggr_val
      (true, { b with aggr_val := av, non_null_cnt := b.non_null_cnt + 1 })
  | .kBool, some _ => (false, b)

/-- `MaxAggregator::UpdateAggrVal`: keeps the larger value per column type,
treating an empty accumulator as replaceable; null input returns true. -/
def maxUpdateAggrVal (ct : DataType) (v : Option (Scalar ct)) (b : AggrBuffer) :
    Bool × AggrBuffer :=
  match ct, v with
  | _, none => (true, b)
  | .kSmallInt, some x =>
      let av := if b.AggrValEmpty = true ∨ x > b.aggr_val.vsmallint then
          { b.aggr_val with vsmallint := x } else b.aggr_val
      (true, { b with aggr_val := av, non_null_cnt := b.non_null_cnt + 1 })
  | .kDate, some x =>
      let av := if b.AggrValEmpty = true ∨ x > b.aggr_val.vint then
          { b.aggr_val with vint := x } else b.aggr_val
      (true, { b with aggr_val := av, non_null_cnt := b.non_null_cnt + 1 })
  | .kInt, some x =>
      let av := if b.AggrValEmpty = true ∨ x > b.aggr_val.vint then
          { b.aggr_val with vint := x } else b.aggr_val
      (true, { b with aggr_val := av, non_null_cnt := b.non_null_cnt + 1 })
  | .kTimestamp, some x =>
      let av := if b.AggrValEmpty = true ∨ x > b.aggr_val.vlong then
          { b.aggr_val with vlong := x } else b.aggr_val
      (true, { b with aggr_val := av, non_null_cnt := b.non_null_cnt + 1 })
  | .kBigInt, some x =>
      let av := if b.AggrValEmpty = true ∨ x > b.aggr_val.vlong then
          { b.aggr_val with vlong := x } else b.aggr_val
      (true, { b with aggr_val := av, non_null_cnt := b.non_null_cnt + 1 })
  | .kFloat, some x =>
      let av := if b.AggrValEmpty = true ∨ x > b.aggr_val.vfloat then
          { b.aggr_val with vfloat := x } else b.aggr_val
      (true, { b with aggr_val := av, non_null_cnt := b.non_null_cnt + 1 })
  | .kDouble, some x =>
      let av := if b.AggrValEmpty = true ∨ x > b.aggr_val.vdouble then
          { b.aggr_val with vdouble := x } else b.aggr_val
      (true, { b with aggr_val := av, non_null_cnt := b.non_null_cnt + 1 })
  | .kString, some s =>
      let av := if b.AggrValEmpty = true ∨ stringCompare s b.aggr_val.vstring > 0 then
          { b.aggr_val with vstring := s } else b.aggr_val
      (true, { b with aggr_val := av, non_null_cnt := b.non_null_cnt + 1 })
  | .kVarchar, some s =>
      let av := if b.AggrValEmpty = true ∨ stringCompare s b.aggr_val.vstring > 0 then
          { b.aggr_val with vstring := s } else b.aggr_val
      (true, { b with aggr_val := av, non_null_cnt := b.non_null_cnt + 1 })
  | .kBool, some _ => (false, b)

/-- `CountAggregator::UpdateAggrVal`: counts the row into `non_null_cnt` when
`count_all` is set or the aggregate column is not NULL; always succeeds. -/
def countUpdateAggrVal (count_all : Bool) (is_null : Bool) (b : AggrBuffer) :
    Bool × AggrBuffer :=
  (true, if count_all || !is_null then { b with non_null_cnt := b.non_null_cnt + 1 } else b)

/-- `AvgAggregator::UpdateAggrVal`: accumulates into the `vdouble` running sum
for smallint, int, bigint, float and double columns; any other column type
(including timestamp) hits the default branch and fails. -/
def avgUpdateAggrVal (ct : DataType) (v : Option (Scalar ct)) (b : AggrBuffer) :
    Bool × AggrBuffer :=
  match ct, v with
  | _, none => (true, b)
  | .kSmallInt, some x =>
      (true, { b with aggr_val := { b.aggr_val with vdouble := b.aggr_val.vdouble + (x : Rat) },
                      non_null_cnt := b.non_null_cnt + 1 })
  | .kInt, some x =>
      (true, { b with aggr_val := { b.aggr_val with vdouble := b.aggr_val.vdouble + (x : Rat) },
                      non_null_cnt := b.non_null_cnt + 1 })
  | .kBigInt, some x =>
      (true, { b with aggr_val := { b.aggr_val with vdouble := b.aggr_val.vdouble + (x : Rat) },
                      non_null_cnt := b.non_null_cnt + 1 })
  | .kFloat, some x =>
      (true, { b with aggr_val := { b.aggr_val with vdouble := b.aggr_val.vdouble + x },
                      non_null_cnt := b.non_null_cnt + 1 })
  | .kDouble, some x =>
      (true, { b with aggr_val := { b.aggr_val with vdouble := b.aggr_val.vdouble + x },
                      non_null_cnt := b.non_null_cnt + 1 })
  | _, some _ => (false, b)

/-- Virtual dispatch of `UpdateAggrVal` on the aggregator subclass. -/
def updateAggrVal (cfg : AggrConfig) (v : Option (Scalar cfg.aggr_col_type))
    (b : AggrBuffer) : Bool × AggrBuffer :=
  match cfg.aggr_type with
  | .kSum => sumUpdateAggrVal cfg.aggr_col_type v b
  | .kMin => minUpdateAggrVal cfg.aggr_col_type v b
  | .kMax => maxUpdateAggrVal cfg.aggr_col_type v b
  | .kCount => countUpdateAggrVal cfg.count_all v.isNone b
  | .kCountWhere => countUpdateAggrVal cfg.count_all v.isNone b
  | .kAvg => avgUpdateAggrVal cfg.aggr_col_type v b

/-- `SumAggregator::EncodeAggrVal`: integer families write the widened
`vlong`, floats and doubles their own arm; other column types fail. -/
def sumEncodeAggrVal (ct : DataType) (b : AggrBuffer) : Option EncVal :=
  match ct with
  | .kSmallInt => some (.eInt b.aggr_val.vlong)
  | .kInt => some (.eInt b.aggr_val.vlong)
  | .kTimestamp => some (.eInt b.aggr_val.vlong)
  | .kBigInt => some (.eInt b.aggr_val.vlong)
  | .kFloat => some (.eFloat b.aggr_val.vfloat)
  | .kDouble => some (.eDouble b.aggr_val.vdouble)
  | _ => none

/-- `MinMaxBaseAggregator::EncodeAggrVal`: native width per column type,
dates as i32, strings as raw bytes; unsupported types fail. -/
def minmaxEncodeAggrVal (ct : DataType) (b : AggrBuffer) : Option EncVal :=
  match ct with
  | .kSmallInt => some (.eInt b.aggr_val.vsmallint)
  | .kDate => some (.eInt b.aggr_val.vint)
  | .kInt => some (.eInt b.aggr_val.vint)
  | .kTimestamp => some (.eInt b.aggr_val.vlong)
  | .kBigInt => some (.eInt b.aggr_val.vlong)
  | .kFloat => some (.eFloat b.aggr_val.vfloat)
  | .kDouble => some (.eDouble b.aggr_val.vdouble)
  | .kString => some (.eStr b.aggr_val.vstring)
  | .kVarchar => some (.eStr b.aggr_val.vstring)
  | .kBool => none

/-- `CountAggregator::EncodeAggrVal`: always writes `non_null_cnt` as i64. -/
def countEncodeAggrVal (b : AggrBuffer) : Option EncVal :=
  some (.eInt b.non_null_cnt)

/-- `AvgAggregator::EncodeAggrVal`: always writes the f64 running sum
concatenated with the i64 non-null count. -/
def avgEncodeAggrVal (b : AggrBuffer) : Option EncVal :=
  some (.eAvg b.aggr_val.vdouble b.non_null_cnt)

/-- Virtual dispatch of `EncodeAggrVal` on the aggregator subclass. -/
def encodeAggrVal (cfg : AggrConfig) (b : AggrBuffer) : Option EncVal :=
  match cfg.aggr_type with
  | .kSum => sumEncodeAggrVal cfg.aggr_col_type b
  | .kMin => minmaxEncodeAggrVal cfg.aggr_col_type b
  | .kMax => minmaxEncodeAggrVal cfg.aggr_col_type b
  | .kCount => countEncodeAggrVal b
  | .kCountWhere => countEncodeAggrVal b
  | .kAvg => avgEncodeAggrVal b

/-- `SumAggregator::DecodeAggrVal`: a NULL field 4 leaves the buffer
untouched; otherwise the raw scalar is read back into the arm for the column
type.  In the source a tag mismatch cannot occur (the bytes were produced by
the matching encoder); here it is mapped to failure. -/
def sumDecodeAggrVal (ct : DataType) (field4 : Option EncVal) (b : AggrBuffer) :
    Option AggrBuffer :=
  match field4 with
  | none => some b
  | some e =>
    match ct, e with
    | .kSmallInt, .eInt x => some { b with aggr_val := { b.aggr_val with vlong := x } }
    | .kInt, .eInt x => some { b with aggr_val := { b.aggr_val with vlong := x } }
    | .kTimestamp, .eInt x => some { b with aggr_val := { b.aggr_val with vlong := x } }
    | .kBigInt, .eInt x => some { b with aggr_val := { b.aggr_val with vlong := x } }
    | .kFloat, .eFloat x => some { b with aggr_val := { b.aggr_val with vfloat := x } }
    | .kDouble, .eDouble x => some { b with aggr_val := { b.aggr_val with vdouble := x } }
    | _, _ => none

/-- `MinMaxBaseAggregator::DecodeAggrVal`: as for SUM but at native widths,
including the string arm. -/
def minmaxDecodeAggrVal (ct : DataType) (field4 : Option EncVal) (b : AggrBuffer) :
    Option AggrBuffer :=
  match field4 with
  | none => some b
  | some e =>
    match ct, e with
    | .kSmallInt, .eInt x => some { b with aggr_val := { b.aggr_val with vsmallint := x } }
    | .kDate, .eInt x => some { b with aggr_val := { b.aggr_val with vint := x } }
    | .kInt, .eInt x => some { b with aggr_val := { b.aggr_val with vint := x } }
    | .kTimestamp, .eInt x => some { b with aggr_val := { b.aggr_val with vlong := x } }
    | .kBigInt, .eInt x => some { b with aggr_val := { b.aggr_val with vlong := x } }
    | .kFloat, .eFloat x => some { b with aggr_val := { b.aggr_val with vfloat := x } }
    | .kDouble, .eDouble x => some { b with aggr_val := { b.aggr_val with vdouble := x } }
    | .kString, .eStr s => some { b with aggr_val := { b.aggr_val with vstring := s } }
    | .kVarchar, .eStr s => some { b with aggr_val := { b.aggr_val with vstring := s } }
    | _, _ => none

/-- `CountAggregator::DecodeAggrVal`: reads the i64 back into
`non_null_cnt`; NULL leaves the buffer untouched. -/
def countDecodeAggrVal (field4 : Option EncVal) (b : AggrBuffer) : Option AggrBuffer :=
  match field4 with
  | none => some b
  | some (.eInt x) => some { b with non_null_cnt := x }
  | some _ => none

/-- `AvgAggregator::DecodeAggrVal`: reads back the f64 sum and i64 count. -/
def avgDecodeAggrVal (field4 : Option EncVal) (b : AggrBuffer) : Option AggrBuffer :=
  match field4 with
  | none => some b
  | some (.eAvg s c) => some { b with aggr_val := { b.aggr_val with vdouble := s }, non_null_cnt := c }
  | some _ => none

/-- Virtual dispatch of `DecodeAggrVal` on the aggregator subclass. -/
def decodeAggrVal (cfg : AggrConfig) (field4 : Option EncVal) (b : AggrBuffer) :
    Option AggrBuffer :=
  match cfg.aggr_type with
  | .kSum => sumDecodeAggrVal cfg.aggr_col_type field4 b
  | .kMin => minmaxDecodeAggrVal cfg.aggr_col_type field4 b
  | .kMax => minmaxDecodeAggrVal cfg.aggr_col_type field4 b
  | .kCount => countDecodeAggrVal field4 b
  | .kCountWhere => countDecodeAggrVal field4 b
  | .kAvg => avgDecodeAggrVal field4 b

/-- `Aggregator::GetAggrBufferFromRowView`: copies the positional fields 1,
2, 3 and 5 of an aggregate-table row into the buffer, stamps the data type,
and decodes field 4 through the kernel. -/
def getAggrBufferFromRowView (cfg : AggrConfig) (r : FlushedRow) (b : AggrBuffer) :
    Option AggrBuffer :=
  let b := { b with data_type := cfg.aggr_col_type, ts_begin := r.ts_begin,
                    ts_end := r.ts_end, aggr_cnt := r.aggr_cnt,
                    binlog_offset := r.binlog_offset }
  decodeAggrVal cfg r.aggr_val b

/-- `Aggregator::FlushAggrBuffer`: encode field 4 (NULL for an empty MIN or
MAX bucket), split the bucket key at `key_end`, and build the
aggregate-table row.  Returns `none` exactly when the flush fails before the
row reaches the table (the encode failed). -/
def flushAggrBuffer (cfg : AggrConfig) (aggr_key : String) (b : AggrBuffer) :
    Option FlushedRow :=
  match encodeAggrVal cfg b with
  | none => none
  | some enc =>
      let key := if b.key_end = aggr_key.length then aggr_key
                 else aggr_key.take b.key_end
      let filter_key := if b.key_end = aggr_key.length then ""
                        else aggr_key.drop b.key_end
      some { key := key
             ts_begin := b.ts_begin
             ts_end := b.ts_end
             aggr_cnt := b.aggr_cnt
             aggr_val := if (cfg.aggr_type = .kMax ∨ cfg.aggr_type = .kMin) ∧
                            b.AggrValEmpty = true then none else some enc
             binlog_offset := b.binlog_offset
             filter_key := if filter_key = "" then none else some filter_key }

/-- `Aggregator::CheckBufferFilled`: a time-ranged bucket is filled when the
new timestamp passes its end; a row-count bucket when it already holds
`window_size` rows. -/
def checkBufferFilled (cfg : AggrConfig) (cur_ts : Int) (buffer_end : Int)
    (buffer_cnt : Int) : Bool :=
  if cfg.window_type = .kRowsRange ∧ cur_ts > buffer_end then true
  else if cfg.window_type = .kRowsNum ∧ buffer_cnt ≥ (cfg.window_size : Int) then true
  else false

/-- The aggregate-table contents for one bucket stream together with the live
bucket.  The table holds flushed rows newest first. -/
structure AggState where
  buffer : AggrBuffer
  table : List FlushedRow
  deriving DecidableEq, Repr

/-- Modelled from the spec: the aggregate-table traverse iterator.
`Seek(key, cur_ts + 1)` on the descending time index positions at the latest
bucket whose `ts_begin` is at most `cur_ts`; among rows with equal
`ts_begin` the most recently written one (closest to the list head) wins. -/
def seekLatest (table : List FlushedRow) (cur_ts : Int) : Option FlushedRow :=
  (table.filter (fun r => r.ts_begin ≤ cur_ts)).foldl
    (fun acc r =>
      match acc with
      | none => some r
      | some a => if r.ts_begin > a.ts_begin then some r else acc) none

/-- `Aggregator::UpdateFlushedBuffer`: the late-arrival merge.  Seek the
historical bucket covering `cur_ts`; if found, decode it, require the range
to contain `cur_ts`, bump the count, stamp the offset, fold and re-flush; if
nothing is found, build a singleton bucket at `cur_ts` and flush it. -/
def updateFlushedBuffer (cfg : AggrConfig) (key : String)
    (v : Option (Scalar cfg.aggr_col_type)) (cur_ts : Int) (offset : Nat)
    (table : List FlushedRow) : Bool × List FlushedRow :=
  match seekLatest table cur_ts with
  | some r =>
      match getAggrBufferFromRowView cfg r { key_end := key.length } with
      | none => (false, table)
      | some tmp =>
          if cur_ts > tmp.ts_end ∨ cur_ts < tmp.ts_begin then (false, table)
          else
            let tmp := { tmp with aggr_cnt := tmp.aggr_cnt + 1, binlog_offset := offset }
            match updateAggrVal cfg v tmp with
            | (false, _) => (false, table)
            | (true, tmp2) =>
                match flushAggrBuffer cfg key tmp2 with
                | none => (false, table)
                | some row => (true, row :: table)
  | none =>
      let tmp : AggrBuffer := { key_end := key.length, ts_begin := cur_ts,
                                ts_end := cur_ts, aggr_cnt := 1, binlog_offset := offset }
      match updateAggrVal cfg v tmp with
      | (false, _) => (false, table)
      | (true, tmp2) =>
          match flushAggrBuffer cfg key tmp2 with
          | none => (false, table)
          | some row => (true, row :: table)

/-- The buffer-initialisation step of `Aggregator::Update`: a bucket whose
`ts_begin` is the sentinel -1 adopts the timestamp of the incoming row and,
for time-ranged windows, closes at `cur_ts + window_size - 1`. -/
def initBuffer (cfg : AggrConfig) (cur_ts : Int) (b : AggrBuffer) : AggrBuffer :=
  if b.ts_begin = -1 then
    let b := { b with data_type := cfg.aggr_col_type, ts_begin := cur_ts }
    if cfg.window_type = .kRowsRange then
      { b with ts_end := cur_ts + (cfg.window_size : Int) - 1 }
    else b
  else b

/-- The bucket re-initialisation performed inside the rollover branch of
`Aggregator::Update`: clear, then seed `ts_begin` with the old `ts_end + 1`
and `binlog_offset` with the old value plus one; time-ranged windows also
get a fresh `ts_end`. -/
def reopenBuffer (cfg : AggrConfig) (b : AggrBuffer) : AggrBuffer :=
  let c := AggrBuffer.clear b
  let c := { c with ts_begin := b.ts_end + 1, binlog_offset := b.binlog_offset + 1 }
  if cfg.window_type = .kRowsRange then
    { c with ts_end := b.ts_end + 1 + (cfg.window_size : Int) - 1 }
  else c

/-- The rollover branch of `Aggregator::Update`: when the bucket is filled,
snapshot it, re-open it in place, and flush the snapshot; the flush result is
ignored by the caller, so on an encode failure the table is unchanged. -/
def rolloverState (cfg : AggrConfig) (key : String) (cur_ts : Int) (st : AggState) :
    AggState :=
  if checkBufferFilled cfg cur_ts st.buffer.ts_end st.buffer.aggr_cnt then
    let table := match flushAggrBuffer cfg key st.buffer with
      | some row => row :: st.table
      | none => st.table
    { buffer := reopenBuffer cfg st.buffer, table := table }
  else st

/-- The state of the bucket after the init and rollover steps of
`Aggregator::Update`, immediately before the offset guard. -/
def preGuardState (cfg : AggrConfig) (key : String) (cur_ts : Int) (st : AggState) :
    AggState :=
  rolloverState cfg key cur_ts { buffer := initBuffer cfg cur_ts st.buffer, table := st.table }

/-- The in-bucket mutation of `Aggregator::Update` before the kernel fold:
bump `aggr_cnt`, stamp `binlog_offset` with the incoming offset, and for
row-count windows track the max timestamp in `ts_end`. -/
def bumpBuffer (cfg : AggrConfig) (cur_ts : Int) (offset : Nat) (b : AggrBuffer) :
    AggrBuffer :=
  let b := { b with aggr_cnt := b.aggr_cnt + 1, binlog_offset := offset }
  if cfg.window_type = .kRowsNum then { b with ts_end := cur_ts } else b

/-- `Aggregator::Update` for one bucket stream.  `cur_ts` and `v` stand for
the timestamp and aggregate column values the row codec reads from the row;
`key` is the bucket key.  Returns the success flag and the new state. -/
def update (cfg : AggrConfig) (status : AggrStat) (key : String) (st : AggState)
    (cur_ts : Int) (v : Option (Scalar cfg.aggr_col_type)) (offset : Nat)
    (recover : Bool) : Bool × AggState :=
  if recover = false ∧ status ≠ AggrStat.kInited then (false, st)
  else if cfg.ts_col_type ≠ .kBigInt ∧ cfg.ts_col_type ≠ .kTimestamp then (false, st)
  else
    let st2 := preGuardState cfg key cur_ts st
    if offset < st2.buffer.binlog_offset then
      (recover, st2)
    else if cur_ts < st2.buffer.ts_begin then
      if recover then (true, st2)
      else
        let res := updateFlushedBuffer cfg key v cur_ts offset st2.table
        (res.1, { buffer := st2.buffer, table := res.2 })
    else
      let res := updateAggrVal cfg v (bumpBuffer cfg cur_ts offset st2.buffer)
      (res.1, { buffer := res.2, table := st2.table })

/-- `Aggregator::FlushAll`: snapshot the buckets that hold at least one row,
then flush them in order, stopping at the first failure. -/
def flushAllGo (cfg : AggrConfig) : List (String × AggrBuffer) → List FlushedRow →
    Bool × List FlushedRow
  | [], table => (true, table)
  | kb :: rest, table =>
      match flushAggrBuffer cfg kb.1 kb.2 with
      | none => (false, table)
      | some row => flushAllGo cfg rest (row :: table)

/-- `Aggregator::FlushAll` entry point: buckets with `aggr_cnt == 0` are
skipped before any flush is attempted. -/
def flushAll (cfg : AggrConfig) (bufs : List (String × AggrBuffer))
    (table : List FlushedRow) : Bool × List FlushedRow :=
  flushAllGo cfg (bufs.filter (fun kb => kb.2.aggr_cnt ≠ 0)) table

/-- Modelled from the spec: `base::IsNumber` accepts exactly the non-empty
all-digit strings (spec section 6.3, `digits := [0-9]+`). -/
def isNumber (s : String) : Bool :=
  s ≠ "" && s.toList.all (fun c => c.isDigit)

/-- `std::stoi` on an all-digit string: the denoted natural number. -/
def stoiNat (s : String) : Nat :=
  s.toList.foldl (fun acc c => acc * 10 + (c.toNat - 48)) 0

/-- The aggregator the factory would construct: function kind, window kind
and window size in rows or milliseconds. -/
structure AggrSpec where
  aggr_type : AggrType
  window_type : WindowType
  window_size : Nat
  deriving DecidableEq, Repr

/-- Modelled from the spec: `boost::to_lower_copy` and `tolower`, lower-casing
character-wise (characters stand in for bytes). -/
def lowerStr (s : String) : String :=
  String.mk (s.toList.map Char.toLower)

/-- Modelled from the spec: `std::string::back()`, the last character of a
non-empty string (callers guard emptiness). -/
def strBack (s : String) : Char :=
  (s.toList.getLast?).getD 'A'

/-- Modelled from the spec: `substr(0, size - 1)`, the string without its last
character. -/
def strDropLast (s : String) : String :=
  String.mk s.toList.dropLast

/-- Modelled from the spec: `boost::trim`, removing whitespace from both
ends. -/
def strTrim (s : String) : String :=
  String.mk (((s.toList.dropWhile (fun c => c.isWhitespace)).reverse.dropWhile
    (fun c => c.isWhitespace)).reverse)

/-- The case-insensitive aggregate function dispatch of `CreateAggregator`. -/
def parseAggrType (aggr_func : String) : Option AggrType :=
  let t := lowerStr aggr_func
  if t = "sum" then some .kSum
  else if t = "min" then some .kMin
  else if t = "max" then some .kMax
  else if t = "count" then some .kCount
  else if t = "avg" then some .kAvg
  else if t = "count_where" then some .kCountWhere
  else none

/-- `CreateAggregator`: parse the bucket size (all digits means a row-count
window; otherwise the lower-cased last character selects the time unit for
the trimmed digit prefix, in milliseconds), then dispatch on the
lower-cased function name.  Any parse failure yields no aggregator. -/
def createAggregator (aggr_func : String) (bucket_size : String) : Option AggrSpec :=
  if isNumber bucket_size then
    match parseAggrType aggr_func with
    | some ty => some { aggr_type := ty, window_type := .kRowsNum,
                        window_size := stoiNat bucket_size }
    | none => none
  else if bucket_size = "" then none
  else
    let time_unit := (strBack bucket_size).toLower
    let time_size := strTrim (strDropLast bucket_size)
    if isNumber time_size = false then none
    else
      let n := stoiNat time_size
      let ws : Option Nat :=
        if time_unit = 's' then some (n * 1000)
        else if time_unit = 'm' then some (n * 1000 * 60)
        else if time_unit = 'h' then some (n * 1000 * 60 * 60)
        else if time_unit = 'd' then some (n * 1000 * 60 * 60 * 24)
        else none
      match ws, parseAggrType aggr_func with
      | some w, some ty => some { aggr_type := ty, window_type := .kRowsRange,
                                  window_size := w }
      | _, _ => none

/-- Feeding a list of rows (timestamp, aggregate value, binlog offset) through
`Update` in live mode, starting from the given state. -/
def runUpdates (cfg : AggrConfig) (key : String) (st : AggState) :
    List (Int × Option (Scalar cfg.aggr_col_type) × Nat) → AggState
  | [] => st
  | (t, v, o) :: rest =>
      runUpdates cfg key (update cfg .kInited key st t v o false).2 rest

/-- The fresh state of a bucket stream whose bucket key is `key`: an empty
bucket whose key split position is the primary key length, and an empty
aggregate table. -/
def initState (key : String) : AggState :=
  { buffer := { key_end := key.length }, table := [] }

end OpenMLDBAggr

namespace OpenMLDBAggr

/-! ### Helper lemmas shared between claims -/

theorem flushAggrBuffer_eq (cfg : AggrConfig) (key : String) (b : AggrBuffer)
    (enc : EncVal) (henc : encodeAggrVal cfg b = some enc) :
    flushAggrBuffer cfg key b =
      some { key := if b.key_end = key.length then key else key.take b.key_end
             ts_begin := b.ts_begin
             ts_end := b.ts_end
             aggr_cnt := b.aggr_cnt
             aggr_val := if (cfg.aggr_type = .kMax ∨ cfg.aggr_type = .kMin) ∧
                            b.AggrValEmpty = true then none else some enc
             binlog_offset := b.binlog_offset
             filter_key := if (if b.key_end = key.length then ""
                               else key.drop b.key_end) = "" then none
                           else some (if b.key_end = key.length then ""
                                      else key.drop b.key_end) } := by
  unfold flushAggrBuffer
  rw [henc]

theorem updateAggrVal_frame (cfg : AggrConfig) (v : Option (Scalar cfg.aggr_col_type))
    (b : AggrBuffer) :
    ((updateAggrVal cfg v b).2).ts_begin = b.ts_begin ∧
    ((updateAggrVal cfg v b).2).ts_end = b.ts_end ∧
    ((updateAggrVal cfg v b).2).aggr_cnt = b.aggr_cnt ∧
    ((updateAggrVal cfg v b).2).binlog_offset = b.binlog_offset ∧
    ((updateAggrVal cfg v b).2).key_end = b.key_end := by
  obtain ⟨at', ct, tt, wt, ws, ca⟩ := cfg
  cases at' <;> cases ct <;> cases v <;>
    simp [updateAggrVal, sumUpdateAggrVal, minUpdateAggrVal, maxUpdateAggrVal,
          countUpdateAggrVal, avgUpdateAggrVal] <;>
    split <;> simp

end OpenMLDBAggr

namespace OpenMLDBAggr

/-! ### C10: AVG over a timestamp column -/

/-- Configuration of an AVG aggregator over a timestamp aggregate column. -/
def avgTsCfg : AggrConfig :=
  { aggr_type := .kAvg, aggr_col_type := .kTimestamp, ts_col_type := .kTimestamp,
    window_type := .kRowsRange, window_size := 1000 }

/-- Configuration of a SUM aggregator over a timestamp aggregate column. -/
def sumTsCfg : AggrConfig :=
  { aggr_type := .kSum, aggr_col_type := .kTimestamp, ts_col_type := .kTimestamp,
    window_type := .kRowsRange, window_size := 1000 }

/-- C10: the AVG fold handles only smallint, int, bigint, float and double, so
it fails on every non-null timestamp value and leaves the buffer unchanged,
while the SUM fold accepts timestamp values; consequently on the concrete row
with timestamp 5, value 7, offset 1 fed to a fresh bucket, Update returns
false for AVG-over-timestamp and true for SUM-over-timestamp. -/
theorem C10_avg_timestamp_unsupported :
    (∀ (x : Int) (b : AggrBuffer), avgUpdateAggrVal .kTimestamp (some x) b = (false, b))
    ∧ (∀ (x : Int) (b : AggrBuffer), (sumUpdateAggrVal .kTimestamp (some x) b).1 = true)
    ∧ (update avgTsCfg .kInited "k" (initState "k") 5
        (some (7 : Int) : Option (Scalar avgTsCfg.aggr_col_type)) 1 false).1 = false
    ∧ (update sumTsCfg .kInited "k" (initState "k") 5
        (some (7 : Int) : Option (Scalar sumTsCfg.aggr_col_type)) 1 false).1 = true := by
  refine ⟨fun x b => rfl, fun x b => rfl, ?_, ?_⟩ <;> decide

/-! ### C6: MIN and MAX publish NULL for all-null buckets -/

/-- C6: whenever the encode step of a flush succeeds, the flushed row exists
and its field 4 is NULL exactly when the aggregator is MIN or MAX and the
bucket has no non-null contribution; in every other case field 4 carries the
encoded kernel value. -/
theorem C6_minmax_null_flush (cfg : AggrConfig) (key : String) (b : AggrBuffer)
    (enc : EncVal) (henc : encodeAggrVal cfg b = some enc) :
    ∃ row, flushAggrBuffer cfg key b = some row
      ∧ (row.aggr_val = none ↔
          (cfg.aggr_type = .kMin ∨ cfg.aggr_type = .kMax) ∧ b.non_null_cnt = 0)
      ∧ (¬ ((cfg.aggr_type = .kMin ∨ cfg.aggr_type = .kMax) ∧ b.non_null_cnt = 0) →
          row.aggr_val = some enc) := by
  refine ⟨_, flushAggrBuffer_eq cfg key b enc henc, ?_, ?_⟩
  · constructor
    · intro h
      by_cases hc : (cfg.aggr_type = .kMax ∨ cfg.aggr_type = .kMin) ∧ b.AggrValEmpty = true
      · exact ⟨hc.1.symm.imp id id, by simpa [AggrBuffer.AggrValEmpty] using hc.2⟩
      · simp only [if_neg hc] at h
        exact absurd h (by simp)
    · intro h
      have hc : (cfg.aggr_type = .kMax ∨ cfg.aggr_type = .kMin) ∧ b.AggrValEmpty = true :=
        ⟨h.1.symm.imp id id, by simp [AggrBuffer.AggrValEmpty, h.2]⟩
      simp only [if_pos hc]
  · intro h
    have hc : ¬ ((cfg.aggr_type = .kMax ∨ cfg.aggr_type = .kMin) ∧ b.AggrValEmpty = true) := by
      intro hc
      exact h ⟨hc.1.symm.imp id id, by simpa [AggrBuffer.AggrValEmpty] using hc.2⟩
    simp only [if_neg hc]

/-- Configuration used by the C6 witness: a MIN aggregator over an int column. -/
def minIntCfg : AggrConfig :=
  { aggr_type := .kMin, aggr_col_type := .kInt, ts_col_type := .kTimestamp,
    window_type := .kRowsRange, window_size := 1000 }

/-- Witness for C6 at a MIN aggregator and an all-null bucket. -/
theorem C6_minmax_null_flush_witness :
    ∃ row, flushAggrBuffer minIntCfg "k" { key_end := 1 } = some row
      ∧ (row.aggr_val = none ↔
          (minIntCfg.aggr_type = .kMin ∨ minIntCfg.aggr_type = .kMax) ∧
            ({ key_end := 1 } : AggrBuffer).non_null_cnt = 0)
      ∧ (¬ ((minIntCfg.aggr_type = .kMin ∨ minIntCfg.aggr_type = .kMax) ∧
            ({ key_end := 1 } : AggrBuffer).non_null_cnt = 0) →
          row.aggr_val = some (.eInt 0)) :=
  C6_minmax_null_flush minIntCfg "k" { key_end := 1 } (.eInt 0) (by decide)

end OpenMLDBAggr

namespace OpenMLDBAggr

/-! ### C4: the offset guard -/

/-- C4: for any call that reaches the offset guard (valid timestamp column
type; the guard compares against the bucket state after the init and rollover
steps, `preGuardState`), an offset strictly below the bucket binlog offset
makes the non-recovery Update return false and the recovery Update return
true, in both cases leaving the state exactly as it was at the guard. -/
theorem C4_offset_guard (cfg : AggrConfig) (status : AggrStat) (key : String)
    (st : AggState) (cur_ts : Int) (v : Option (Scalar cfg.aggr_col_type))
    (offset : Nat)
    (hts : cfg.ts_col_type = .kBigInt ∨ cfg.ts_col_type = .kTimestamp)
    (hguard : offset < (preGuardState cfg key cur_ts st).buffer.binlog_offset) :
    update cfg .kInited key st cur_ts v offset false =
      (false, preGuardState cfg key cur_ts st)
    ∧ update cfg status key st cur_ts v offset true =
      (true, preGuardState cfg key cur_ts st) := by
  have hts' : ¬ (cfg.ts_col_type ≠ DataType.kBigInt ∧ cfg.ts_col_type ≠ DataType.kTimestamp) := by
    rcases hts with h | h <;> simp [h]
  constructor <;>
    · unfold update
      simp [hts', hguard]

/-- Configuration used by the C4 witness: SUM over int, row-count window. -/
def sumIntCfg : AggrConfig :=
  { aggr_type := .kSum, aggr_col_type := .kInt, ts_col_type := .kTimestamp,
    window_type := .kRowsNum, window_size := 10 }

/-- A bucket state whose binlog offset is 5, used by the C4 and C7 witnesses. -/
def guardSt : AggState :=
  { buffer := { ts_begin := 0, ts_end := 3, aggr_cnt := 1, binlog_offset := 5, key_end := 1 },
    table := [] }

/-- Witness for C4 at offset 3 against a bucket whose binlog offset is 5. -/
theorem C4_offset_guard_witness :
    update sumIntCfg .kInited "k" guardSt 4
        (some (9 : Int) : Option (Scalar sumIntCfg.aggr_col_type)) 3 false =
      (false, preGuardState sumIntCfg "k" 4 guardSt)
    ∧ update sumIntCfg .kUnInit "k" guardSt 4
        (some (9 : Int) : Option (Scalar sumIntCfg.aggr_col_type)) 3 true =
      (true, preGuardState sumIntCfg "k" 4 guardSt) :=
  C4_offset_guard sumIntCfg .kUnInit "k" guardSt 4 _ 3 (by decide) (by decide)

/-! ### C7: null inputs increment only the row count -/

/-- C7: an in-bucket Update of a row whose aggregate column is NULL succeeds,
increments `aggr_cnt`, stamps the offset (and for row-count windows the max
timestamp), and leaves `aggr_val` untouched; `non_null_cnt` grows only for a
COUNT or COUNT_WHERE aggregator with the `count_all` flag (aggregate column
`*`), which counts every row. -/
theorem C7_null_fold (cfg : AggrConfig) (key : String) (st : AggState)
    (cur_ts : Int) (offset : Nat)
    (hts : cfg.ts_col_type = .kBigInt ∨ cfg.ts_col_type = .kTimestamp)
    (hne : st.buffer.ts_begin ≠ -1)
    (hfill : checkBufferFilled cfg cur_ts st.buffer.ts_end st.buffer.aggr_cnt = false)
    (hguard : ¬ offset < st.buffer.binlog_offset)
    (hlate : ¬ cur_ts < st.buffer.ts_begin) :
    update cfg .kInited key st cur_ts none offset false =
      (true,
        { buffer :=
            { st.buffer with
              aggr_cnt := st.buffer.aggr_cnt + 1
              binlog_offset := offset
              ts_end := if cfg.window_type = .kRowsNum then cur_ts else st.buffer.ts_end
              non_null_cnt := st.buffer.non_null_cnt +
                (if (cfg.aggr_type = .kCount ∨ cfg.aggr_type = .kCountWhere) ∧
                    cfg.count_all = true then 1 else 0) }
          table := st.table }) := by
  have hts' : ¬ (cfg.ts_col_type ≠ DataType.kBigInt ∧ cfg.ts_col_type ≠ DataType.kTimestamp) := by
    rcases hts with h | h <;> simp [h]
  unfold update preGuardState rolloverState initBuffer
  simp only [hne, if_neg, ite_false, if_false]
  rw [if_neg (by simp)]
  rw [if_neg hts']
  simp only [hfill, Bool.false_eq_true, if_false, if_neg hguard, if_neg hlate]
  obtain ⟨st_buf, st_table⟩ := st
  obtain ⟨at', ct, tt, wt, ws, ca⟩ := cfg
  simp only at hfill ⊢
  cases at' <;> cases ct <;> cases ca <;> cases wt <;>
    simp [updateAggrVal, bumpBuffer, sumUpdateAggrVal, minUpdateAggrVal,
          maxUpdateAggrVal, countUpdateAggrVal, avgUpdateAggrVal]

/-- Configuration used by the C7 witness: COUNT with the count-all flag. -/
def countAllCfg : AggrConfig :=
  { aggr_type := .kCount, aggr_col_type := .kInt, ts_col_type := .kTimestamp,
    window_type := .kRowsNum, window_size := 10, count_all := true }

/-- Witness for C7 at a count-all COUNT aggregator and a NULL input row. -/
theorem C7_null_fold_witness :
    update countAllCfg .kInited "k" guardSt 4 none 7 false =
      (true,
        { buffer :=
            { guardSt.buffer with
              aggr_cnt := guardSt.buffer.aggr_cnt + 1
              binlog_offset := 7
              ts_end := if countAllCfg.window_type = .kRowsNum then 4 else guardSt.buffer.ts_end
              non_null_cnt := guardSt.buffer.non_null_cnt +
                (if (countAllCfg.aggr_type = .kCount ∨ countAllCfg.aggr_type = .kCountWhere) ∧
                    countAllCfg.count_all = true then 1 else 0) }
          table := guardSt.table }) :=
  C7_null_fold countAllCfg "k" guardSt 4 7 (by decide) (by decide) (by decide)
    (by decide) (by decide)

end OpenMLDBAggr


namespace OpenMLDBAggr

/-! ### C8: the factory -/

/-- The millisecond multiplier the spec assigns to each time-unit character. -/
def unitMul (u : Char) : Option Nat :=
  if u = 's' then some 1000
  else if u = 'm' then some (1000 * 60)
  else if u = 'h' then some (1000 * 60 * 60)
  else if u = 'd' then some (1000 * 60 * 60 * 24)
  else none

/-- C8: bucket-size parsing of the factory.  An all-digit string yields a
row-count window of that many rows; otherwise (for a non-empty string whose
trimmed prefix without the last character is all digits) the lower-cased last
character picks the millisecond multiplier through `unitMul`, an unknown unit
yielding no aggregator; the empty string and a non-digit prefix yield no
aggregator, as does a function name outside the six known ones. -/
theorem C8_factory_parsing :
    (∀ f s ty, parseAggrType f = some ty → isNumber s = true →
      createAggregator f s =
        some { aggr_type := ty, window_type := .kRowsNum, window_size := stoiNat s })
    ∧ (∀ f s ty, parseAggrType f = some ty → isNumber s = false → s ≠ "" →
        isNumber (strTrim (strDropLast s)) = true →
        createAggregator f s = (unitMul (strBack s).toLower).map
          (fun m => { aggr_type := ty, window_type := .kRowsRange,
                      window_size := stoiNat (strTrim (strDropLast s)) * m }))
    ∧ (∀ f, createAggregator f "" = none)
    ∧ (∀ f s, isNumber s = false → s ≠ "" →
        isNumber (strTrim (strDropLast s)) = false → createAggregator f s = none)
    ∧ (∀ f s, parseAggrType f = none → createAggregator f s = none) := by
  refine ⟨?_, ?_, ?_, ?_, ?_⟩
  · intro f s ty hf hs
    unfold createAggregator
    rw [if_pos hs, hf]
  · intro f s ty hf hs hne hpre
    unfold createAggregator unitMul
    simp only [hs, Bool.false_eq_true, if_false, if_neg hne, hpre, ite_false,
      Bool.true_eq_false]
    by_cases h1 : (strBack s).toLower = 's'
    · simp [h1, hf]
    by_cases h2 : (strBack s).toLower = 'm'
    · simp [h1, h2, hf, Nat.mul_assoc]
    by_cases h3 : (strBack s).toLower = 'h'
    · simp [h1, h2, h3, hf, Nat.mul_assoc]
    by_cases h4 : (strBack s).toLower = 'd'
    · simp [h1, h2, h3, h4, hf, Nat.mul_assoc]
    simp [h1, h2, h3, h4, hf]
  · intro f
    unfold createAggregator
    rfl
  · intro f s hs hne hpre
    unfold createAggregator
    rw [if_neg (by simp [hs]), if_neg hne, if_pos (by simp [hpre])]
  · intro f s hf
    unfold createAggregator
    simp only [hf]
    split
    · rfl
    split
    · rfl
    split_ifs <;> rfl

end OpenMLDBAggr

namespace OpenMLDBAggr

/-- Witness for C8: the row-count case at bucket size 1000, the time-ranged
case at 2s with an upper-case function name, the empty string, a bad prefix,
and an unknown function name, all at concrete strings. -/
theorem C8_factory_parsing_witness :
    createAggregator "sum" "1000" =
      some { aggr_type := .kSum, window_type := .kRowsNum, window_size := stoiNat "1000" }
    ∧ createAggregator "Max" "2s" = (unitMul (strBack "2s").toLower).map
        (fun m => { aggr_type := .kMax, window_type := .kRowsRange,
                    window_size := stoiNat (strTrim (strDropLast "2s")) * m })
    ∧ createAggregator "sum" "" = none
    ∧ createAggregator "sum" "x2s" = none
    ∧ createAggregator "median" "2s" = none := by
  refine ⟨?_, ?_, ?_, ?_, ?_⟩
  · exact C8_factory_parsing.1 "sum" "1000" .kSum (by decide) (by decide)
  · exact C8_factory_parsing.2.1 "Max" "2s" .kMax (by decide) (by decide) (by decide)
      (by decide)
  · exact C8_factory_parsing.2.2.1 "sum"
  · exact C8_factory_parsing.2.2.2.1 "sum" "x2s" (by decide) (by decide) (by decide)
  · exact C8_factory_parsing.2.2.2.2 "median" "2s" (by decide)

end OpenMLDBAggr

namespace OpenMLDBAggr

/-! ### C9: FlushAll skips empty buckets -/

theorem flushAggrBuffer_cnt (cfg : AggrConfig) (key : String) (b : AggrBuffer)
    (row : FlushedRow) (h : flushAggrBuffer cfg key b = some row) :
    row.aggr_cnt = b.aggr_cnt := by
  unfold flushAggrBuffer at h
  cases henc : encodeAggrVal cfg b with
  | none => rw [henc] at h; exact absurd h (by simp)
  | some enc =>
      rw [henc] at h
      cases h
      rfl

theorem flushAllGo_mem (cfg : AggrConfig) :
    ∀ (l : List (String × AggrBuffer)) (table : List FlushedRow) (row : FlushedRow),
    (∀ kb ∈ l, kb.2.aggr_cnt ≠ 0) → row ∈ (flushAllGo cfg l table).2 →
    row ∈ table ∨ row.aggr_cnt ≠ 0 := by
  intro l
  induction l with
  | nil => intro table row _ hmem; exact Or.inl hmem
  | cons kb rest ih =>
      intro table row hl hmem
      unfold flushAllGo at hmem
      cases hfl : flushAggrBuffer cfg kb.1 kb.2 with
      | none =>
          rw [hfl] at hmem
          exact Or.inl hmem
      | some r =>
          rw [hfl] at hmem
          rcases ih (r :: table) row (fun x hx => hl x (List.mem_cons_of_mem kb hx)) hmem with
            h | h
          · rcases List.mem_cons.mp h with h | h
            · right
              rw [h, flushAggrBuffer_cnt cfg kb.1 kb.2 r hfl]
              exact hl kb (List.mem_cons_self kb rest)
            · exact Or.inl h
          · exact Or.inr h

theorem flushAllGo_true_iff (cfg : AggrConfig) :
    ∀ (l : List (String × AggrBuffer)) (table : List FlushedRow),
    (flushAllGo cfg l table).1 = true ↔
      ∀ kb ∈ l, (flushAggrBuffer cfg kb.1 kb.2).isSome = true := by
  intro l
  induction l with
  | nil => intro table; simp [flushAllGo]
  | cons kb rest ih =>
      intro table
      unfold flushAllGo
      cases hfl : flushAggrBuffer cfg kb.1 kb.2 with
      | none => simp [hfl]
      | some r => simp [hfl, ih (r :: table)]

/-- C9: FlushAll writes rows only for buckets that hold at least one row
(every row of the resulting table is either a pre-existing row or carries a
non-zero count), and it returns true exactly when the flush of every
non-empty bucket succeeds, failing at the first failure. -/
theorem C9_flushall_skips_empty (cfg : AggrConfig) (bufs : List (String × AggrBuffer))
    (table : List FlushedRow) :
    (∀ row ∈ (flushAll cfg bufs table).2, row ∈ table ∨ row.aggr_cnt ≠ 0)
    ∧ ((flushAll cfg bufs table).1 = true ↔
        ∀ kb ∈ bufs, kb.2.aggr_cnt ≠ 0 → (flushAggrBuffer cfg kb.1 kb.2).isSome = true) := by
  constructor
  · intro row hmem
    refine flushAllGo_mem cfg _ table row ?_ hmem
    intro kb hkb
    exact of_decide_eq_true (List.mem_filter.mp hkb).2
  · unfold flushAll
    rw [flushAllGo_true_iff]
    constructor
    · intro h kb hkb hc
      exact h kb (List.mem_filter.mpr ⟨hkb, decide_eq_true hc⟩)
    · intro h kb hkb
      have := List.mem_filter.mp hkb
      exact h kb this.1 (of_decide_eq_true this.2)

/-- Witness for C9 at one empty and one non-empty bucket: the flush succeeds,
the new table has a single row, and that row carries count 2. -/
theorem C9_flushall_skips_empty_witness :
    (flushAll sumIntCfg
        [("k", { key_end := 1 }), ("k2", { key_end := 2, ts_begin := 0, ts_end := 1, aggr_cnt := 2 })]
        []).1 = true :=
  (C9_flushall_skips_empty sumIntCfg
      [("k", { key_end := 1 }), ("k2", { key_end := 2, ts_begin := 0, ts_end := 1, aggr_cnt := 2 })]
      []).2.mpr (by decide)

end OpenMLDBAggr

namespace OpenMLDBAggr

/-! ### C5: the late-arrival merge -/

theorem flushAggrBuffer_fields (cfg : AggrConfig) (key : String) (b : AggrBuffer)
    (row : FlushedRow) (h : flushAggrBuffer cfg key b = some row) :
    row.ts_begin = b.ts_begin ∧ row.ts_end = b.ts_end ∧ row.aggr_cnt = b.aggr_cnt ∧
    row.binlog_offset = b.binlog_offset := by
  unfold flushAggrBuffer at h
  cases henc : encodeAggrVal cfg b with
  | none => rw [henc] at h; exact absurd h (by simp)
  | some enc =>
      rw [henc] at h
      cases h
      exact ⟨rfl, rfl, rfl, rfl⟩

theorem decodeAggrVal_frame (cfg : AggrConfig) (f4 : Option EncVal) (b out : AggrBuffer)
    (h : decodeAggrVal cfg f4 b = some out) :
    out.ts_begin = b.ts_begin ∧ out.ts_end = b.ts_end ∧ out.aggr_cnt = b.aggr_cnt ∧
    out.binlog_offset = b.binlog_offset ∧ out.key_end = b.key_end := by
  obtain ⟨at', ct, tt, wt, ws, ca⟩ := cfg
  rcases f4 with _ | e
  · cases at' <;>
      simp only [decodeAggrVal, sumDecodeAggrVal, minmaxDecodeAggrVal,
        countDecodeAggrVal, avgDecodeAggrVal, Option.some.injEq] at h <;>
      subst h <;> exact ⟨rfl, rfl, rfl, rfl, rfl⟩
  · cases at' <;> cases ct <;> cases e <;>
      simp only [decodeAggrVal, sumDecodeAggrVal, minmaxDecodeAggrVal,
        countDecodeAggrVal, avgDecodeAggrVal, Option.some.injEq,
        reduceCtorEq] at h <;>
      subst h <;> exact ⟨rfl, rfl, rfl, rfl, rfl⟩

theorem getAggrBufferFromRowView_fields (cfg : AggrConfig) (r : FlushedRow)
    (b tmp : AggrBuffer) (h : getAggrBufferFromRowView cfg r b = some tmp) :
    tmp.ts_begin = r.ts_begin ∧ tmp.ts_end = r.ts_end ∧ tmp.aggr_cnt = r.aggr_cnt ∧
    tmp.binlog_offset = r.binlog_offset ∧ tmp.key_end = b.key_end := by
  unfold getAggrBufferFromRowView at h
  have := decodeAggrVal_frame cfg r.aggr_val _ tmp h
  simpa using this

end OpenMLDBAggr

namespace OpenMLDBAggr

/-- C5: behaviour of the late-arrival merge.  First, a non-recovery Update
whose timestamp falls below the live bucket start (after init and rollover)
delegates to `updateFlushedBuffer` and leaves the live bucket untouched.
Then, for the merge itself: when the seek finds a historical row that
decodes but whose range misses `cur_ts`, the merge fails and writes nothing;
when the range contains `cur_ts`, the decoded bucket gets its count bumped
by one and the offset stamped, the row is folded in, and the bucket is
re-flushed with the same `ts_begin`; when the seek finds nothing, a
singleton bucket over `[cur_ts, cur_ts]` with count 1 is flushed. -/
theorem C5_late_arrival_merge :
    (∀ (cfg : AggrConfig) (key : String) (st : AggState) (cur_ts : Int)
        (v : Option (Scalar cfg.aggr_col_type)) (offset : Nat),
      (cfg.ts_col_type = .kBigInt ∨ cfg.ts_col_type = .kTimestamp) →
      ¬ offset < (preGuardState cfg key cur_ts st).buffer.binlog_offset →
      cur_ts < (preGuardState cfg key cur_ts st).buffer.ts_begin →
      update cfg .kInited key st cur_ts v offset false =
        ((updateFlushedBuffer cfg key v cur_ts offset (preGuardState cfg key cur_ts st).table).1,
         { buffer := (preGuardState cfg key cur_ts st).buffer,
           table := (updateFlushedBuffer cfg key v cur_ts offset
                      (preGuardState cfg key cur_ts st).table).2 }))
    ∧ (∀ (cfg : AggrConfig) (key : String) (v : Option (Scalar cfg.aggr_col_type))
          (cur_ts : Int) (offset : Nat) (table : List FlushedRow) (r : FlushedRow)
          (tmp : AggrBuffer),
        seekLatest table cur_ts = some r →
        getAggrBufferFromRowView cfg r { key_end := key.length } = some tmp →
        (cur_ts > tmp.ts_end ∨ cur_ts < tmp.ts_begin) →
        updateFlushedBuffer cfg key v cur_ts offset table = (false, table))
    ∧ (∀ (cfg : AggrConfig) (key : String) (v : Option (Scalar cfg.aggr_col_type))
          (cur_ts : Int) (offset : Nat) (table : List FlushedRow) (r : FlushedRow)
          (tmp tmp2 : AggrBuffer) (row : FlushedRow),
        seekLatest table cur_ts = some r →
        getAggrBufferFromRowView cfg r { key_end := key.length } = some tmp →
        ¬ (cur_ts > tmp.ts_end ∨ cur_ts < tmp.ts_begin) →
        updateAggrVal cfg v
          { tmp with aggr_cnt := tmp.aggr_cnt + 1, binlog_offset := offset } = (true, tmp2) →
        flushAggrBuffer cfg key tmp2 = some row →
        updateFlushedBuffer cfg key v cur_ts offset table = (true, row :: table)
          ∧ row.ts_begin = r.ts_begin ∧ row.aggr_cnt = r.aggr_cnt + 1
          ∧ row.binlog_offset = offset)
    ∧ (∀ (cfg : AggrConfig) (key : String) (v : Option (Scalar cfg.aggr_col_type))
          (cur_ts : Int) (offset : Nat) (table : List FlushedRow)
          (tmp2 : AggrBuffer) (row : FlushedRow),
        seekLatest table cur_ts = none →
        updateAggrVal cfg v
          { key_end := key.length, ts_begin := cur_ts, ts_end := cur_ts,
            aggr_cnt := 1, binlog_offset := offset } = (true, tmp2) →
        flushAggrBuffer cfg key tmp2 = some row →
        updateFlushedBuffer cfg key v cur_ts offset table = (true, row :: table)
          ∧ row.ts_begin = cur_ts ∧ row.ts_end = cur_ts ∧ row.aggr_cnt = 1
          ∧ row.binlog_offset = offset) := by
  refine ⟨?_, ?_, ?_, ?_⟩
  · intro cfg key st cur_ts v offset hts hguard hlate
    have hts' : ¬ (cfg.ts_col_type ≠ DataType.kBigInt ∧ cfg.ts_col_type ≠ DataType.kTimestamp) := by
      rcases hts with h | h <;> simp [h]
    unfold update
    rw [if_neg (by simp), if_neg hts', if_neg hguard, if_pos hlate]
    rfl
  · intro cfg key v cur_ts offset table r tmp hseek hdec hout
    unfold updateFlushedBuffer
    simp only [hseek, hdec]
    rw [if_pos hout]
  · intro cfg key v cur_ts offset table r tmp tmp2 row hseek hdec hout hfold hflush
    have hdecf := getAggrBufferFromRowView_fields cfg r _ tmp hdec
    have hfoldf := updateAggrVal_frame cfg v
      { tmp with aggr_cnt := tmp.aggr_cnt + 1, binlog_offset := offset }
    rw [hfold] at hfoldf
    have hflushf := flushAggrBuffer_fields cfg key tmp2 row hflush
    refine ⟨?_, ?_, ?_, ?_⟩
    · unfold updateFlushedBuffer
      simp only [hseek, hdec]
      rw [if_neg hout]
      simp only [hfold, hflush]
    · rw [hflushf.1, hfoldf.1]
      exact hdecf.1
    · rw [hflushf.2.2.1, hfoldf.2.2.1]
      simp [hdecf.2.2.1]
    · rw [hflushf.2.2.2, hfoldf.2.2.2.1]
  · intro cfg key v cur_ts offset table tmp2 row hseek hfold hflush
    have hfoldf := updateAggrVal_frame cfg v
      { key_end := key.length, ts_begin := cur_ts, ts_end := cur_ts,
        aggr_cnt := 1, binlog_offset := offset }
    rw [hfold] at hfoldf
    have hflushf := flushAggrBuffer_fields cfg key tmp2 row hflush
    refine ⟨?_, ?_, ?_, ?_, ?_⟩
    · unfold updateFlushedBuffer
      simp only [hseek, hfold, hflush]
    · rw [hflushf.1, hfoldf.1]
    · rw [hflushf.2.1, hfoldf.2.1]
    · rw [hflushf.2.2.1, hfoldf.2.2.1]
    · rw [hflushf.2.2.2, hfoldf.2.2.2.1]

end OpenMLDBAggr

namespace OpenMLDBAggr

/-- Historical aggregate-table row used by the C5 witness. -/
def lateRow : FlushedRow :=
  { key := "k", ts_begin := 0, ts_end := 999, aggr_cnt := 2,
    aggr_val := some (.eInt 5), binlog_offset := 3, filter_key := none }

/-- Decoded bucket of `lateRow` for a SUM over int aggregator. -/
def lateTmp : AggrBuffer :=
  { data_type := .kInt, ts_begin := 0, ts_end := 999, aggr_cnt := 2,
    aggr_val := { vlong := 5 }, non_null_cnt := 0, binlog_offset := 3, key_end := 1 }

/-- The bucket of the C5 witness after bump, stamp and fold of value 4. -/
def lateTmp2 : AggrBuffer :=
  { data_type := .kInt, ts_begin := 0, ts_end := 999, aggr_cnt := 3,
    aggr_val := { vlong := 9 }, non_null_cnt := 1, binlog_offset := 7, key_end := 1 }

/-- The row the C5 witness merge re-flushes. -/
def lateOut : FlushedRow :=
  { key := "k", ts_begin := 0, ts_end := 999, aggr_cnt := 3,
    aggr_val := some (.eInt 9), binlog_offset := 7, filter_key := none }

/-- Witness for C5: merging the late row (ts 500, value 4, offset 7) into the
historical bucket [0, 999] re-flushes that bucket with the same start, count
3 and offset 7. -/
theorem C5_late_arrival_merge_witness :
    updateFlushedBuffer sumIntCfg "k"
        (some (4 : Int) : Option (Scalar sumIntCfg.aggr_col_type)) 500 7 [lateRow] =
      (true, lateOut :: [lateRow])
      ∧ lateOut.ts_begin = lateRow.ts_begin ∧ lateOut.aggr_cnt = lateRow.aggr_cnt + 1
      ∧ lateOut.binlog_offset = 7 :=
  C5_late_arrival_merge.2.2.1 sumIntCfg "k"
    (some (4 : Int) : Option (Scalar sumIntCfg.aggr_col_type)) 500 7 [lateRow]
    lateRow lateTmp lateTmp2 lateOut (by decide) (by decide) (by decide)
    (by decide) (by decide)

end OpenMLDBAggr

namespace OpenMLDBAggr

/-! ### Run machinery shared by C1, C2 and C3 -/

/-- A strictly in-order tail of rows: each timestamp strictly above the
running bound and each offset at least the running bound, which then advances
past it (so both timestamps and offsets are strictly increasing along the
list, and all timestamps stay above `t0`). -/
def chainFrom {α : Type} (t0 : Int) (o0 : Nat) : List (Int × α × Nat) → Bool
  | [] => true
  | (t, _, o) :: rest => decide (t0 < t) && decide (o0 ≤ o) && chainFrom t (o + 1) rest

/-- Whether the encode step of a flush succeeds for this configuration; the
per-kernel encoders succeed or fail depending only on the aggregate function
and column type, never on the buffer contents. -/
def encodeOk (cfg : AggrConfig) : Bool :=
  (encodeAggrVal cfg {}).isSome

theorem encodeOk_some (cfg : AggrConfig) (b : AggrBuffer) (h : encodeOk cfg = true) :
    ∃ enc, encodeAggrVal cfg b = some enc := by
  obtain ⟨at', ct, tt, wt, ws, ca⟩ := cfg
  cases at' <;> cases ct <;>
    simp [encodeOk, encodeAggrVal, sumEncodeAggrVal, minmaxEncodeAggrVal,
      countEncodeAggrVal, avgEncodeAggrVal] at h ⊢

/-- The state invariant of a live bucket between in-order updates: the bucket
start is a real timestamp at most the last row timestamp and at most the
bucket end, the binlog offset is at most the last row offset, and for
row-count windows the tracked max timestamp is at most the last row
timestamp. -/
def Inv (cfg : AggrConfig) (b : AggrBuffer) (tPrev : Int) (oPrev : Nat) : Prop :=
  0 ≤ b.ts_begin ∧ b.ts_begin ≤ tPrev ∧ b.ts_begin ≤ b.ts_end ∧
  b.binlog_offset ≤ oPrev ∧
  (cfg.window_type = .kRowsNum → b.ts_end ≤ tPrev)

theorem initBuffer_skip (cfg : AggrConfig) (cur_ts : Int) (b : AggrBuffer)
    (h : b.ts_begin ≠ -1) : initBuffer cfg cur_ts b = b := by
  unfold initBuffer
  rw [if_neg h]

theorem bumpBuffer_fields (cfg : AggrConfig) (cur_ts : Int) (offset : Nat)
    (b : AggrBuffer) :
    (bumpBuffer cfg cur_ts offset b).ts_begin = b.ts_begin ∧
    (bumpBuffer cfg cur_ts offset b).aggr_cnt = b.aggr_cnt + 1 ∧
    (bumpBuffer cfg cur_ts offset b).binlog_offset = offset ∧
    (bumpBuffer cfg cur_ts offset b).aggr_val = b.aggr_val ∧
    (bumpBuffer cfg cur_ts offset b).non_null_cnt = b.non_null_cnt ∧
    (bumpBuffer cfg cur_ts offset b).key_end = b.key_end ∧
    (bumpBuffer cfg cur_ts offset b).ts_end =
      (if cfg.window_type = .kRowsNum then cur_ts else b.ts_end) := by
  unfold bumpBuffer
  split <;> simp_all

theorem reopenBuffer_fields (cfg : AggrConfig) (b : AggrBuffer) :
    (reopenBuffer cfg b).ts_begin = b.ts_end + 1 ∧
    (reopenBuffer cfg b).binlog_offset = b.binlog_offset + 1 ∧
    (reopenBuffer cfg b).aggr_cnt = 0 ∧
    (reopenBuffer cfg b).aggr_val = {} ∧
    (reopenBuffer cfg b).non_null_cnt = 0 ∧
    (reopenBuffer cfg b).key_end = b.key_end ∧
    (reopenBuffer cfg b).ts_end =
      (if cfg.window_type = .kRowsRange then b.ts_end + 1 + (cfg.window_size : Int) - 1
       else -1) := by
  unfold reopenBuffer AggrBuffer.clear
  split <;> simp_all

theorem checkBufferFilled_true (cfg : AggrConfig) (cur_ts buffer_end : Int)
    (buffer_cnt : Int) (h : checkBufferFilled cfg cur_ts buffer_end buffer_cnt = true) :
    (cfg.window_type = .kRowsRange → cur_ts > buffer_end) ∧
    (cfg.window_type = .kRowsNum → buffer_cnt ≥ (cfg.window_size : Int)) := by
  unfold checkBufferFilled at h
  split_ifs at h with h1 h2
  · exact ⟨fun _ => h1.2, fun hw => absurd (h1.1 ▸ hw) (by simp)⟩
  · exact ⟨fun hw => absurd (h2.1 ▸ hw) (by simp), fun _ => h2.2⟩

theorem checkBufferFilled_iff (cfg : AggrConfig) (cur_ts buffer_end : Int)
    (buffer_cnt : Int) :
    checkBufferFilled cfg cur_ts buffer_end buffer_cnt = true ↔
      ((cfg.window_type = .kRowsRange ∧ cur_ts > buffer_end) ∨
       (cfg.window_type = .kRowsNum ∧ buffer_cnt ≥ (cfg.window_size : Int))) := by
  unfold checkBufferFilled
  split_ifs with h1 h2 <;> simp_all

end OpenMLDBAggr

namespace OpenMLDBAggr

theorem initBuffer_first_fields (cfg : AggrConfig) (key : String) (t : Int) :
    (initBuffer cfg t (initState key).buffer).ts_begin = t ∧
    (initBuffer cfg t (initState key).buffer).aggr_cnt = 0 ∧
    (initBuffer cfg t (initState key).buffer).binlog_offset = 0 ∧
    (initBuffer cfg t (initState key).buffer).aggr_val = {} ∧
    (initBuffer cfg t (initState key).buffer).non_null_cnt = 0 ∧
    (initBuffer cfg t (initState key).buffer).key_end = key.length ∧
    (initBuffer cfg t (initState key).buffer).ts_end =
      (if cfg.window_type = .kRowsRange then t + (cfg.window_size : Int) - 1 else -1) := by
  unfold initBuffer initState
  split
  · split <;> simp_all
  · simp_all

theorem preGuard_first (cfg : AggrConfig) (key : String) (t : Int)
    (hW : 1 ≤ cfg.window_size) :
    preGuardState cfg key t (initState key) =
      { buffer := initBuffer cfg t (initState key).buffer, table := [] } := by
  obtain ⟨hbeg, hcnt, _, _, _, _, hend⟩ := initBuffer_first_fields cfg key t
  unfold preGuardState rolloverState
  rw [if_neg ?hfill]
  case hfill =>
    intro h
    rw [checkBufferFilled_iff] at h
    simp only [hcnt, hend] at h
    rcases h with ⟨hw, hgt⟩ | ⟨hw, hge⟩
    · rw [if_pos hw] at hgt
      omega
    · omega
  rfl

theorem update_first_char (cfg : AggrConfig) (key : String) (t : Int)
    (v : Option (Scalar cfg.aggr_col_type)) (o : Nat)
    (hts : cfg.ts_col_type = .kBigInt ∨ cfg.ts_col_type = .kTimestamp)
    (hW : 1 ≤ cfg.window_size) (ht0 : 0 ≤ t) :
    update cfg .kInited key (initState key) t v o false =
      ((updateAggrVal cfg v (bumpBuffer cfg t o (initBuffer cfg t (initState key).buffer))).1,
       { buffer :=
           (updateAggrVal cfg v (bumpBuffer cfg t o (initBuffer cfg t (initState key).buffer))).2,
         table := [] })
    ∧ Inv cfg
        (updateAggrVal cfg v (bumpBuffer cfg t o (initBuffer cfg t (initState key).buffer))).2 t o
    ∧ (updateAggrVal cfg v
        (bumpBuffer cfg t o (initBuffer cfg t (initState key).buffer))).2.aggr_cnt = 1 := by
  have hts' : ¬ (cfg.ts_col_type ≠ DataType.kBigInt ∧ cfg.ts_col_type ≠ DataType.kTimestamp) := by
    rcases hts with h | h <;> simp [h]
  obtain ⟨hbeg, hcnt, hbin, _, _, _, hend⟩ := initBuffer_first_fields cfg key t
  obtain ⟨hbts, hbcnt, hbbin, _, _, _, hbend⟩ :=
    bumpBuffer_fields cfg t o (initBuffer cfg t (initState key).buffer)
  obtain ⟨hfts, hftse, hfcnt, hfbin, _⟩ :=
    updateAggrVal_frame cfg v (bumpBuffer cfg t o (initBuffer cfg t (initState key).buffer))
  refine ⟨?_, ?_, ?_⟩
  · unfold update
    rw [if_neg (by simp), if_neg hts', preGuard_first cfg key t hW]
    rw [if_neg (by simp only [hbin]; omega), if_neg (by simp only [hbeg]; omega)]
  · refine ⟨?_, ?_, ?_, ?_, ?_⟩
    · rw [hfts, hbts, hbeg]; exact ht0
    · rw [hfts, hbts, hbeg]
    · rw [hfts, hftse, hbts, hbeg, hbend]
      rcases hwt : cfg.window_type with _ | _
      · rw [if_pos rfl]
      · rw [if_neg (by simp), hend, if_pos hwt]
        omega
    · rw [hfbin, hbbin]
    · intro hwt
      rw [hftse, hbend, if_pos hwt]
  · rw [hfcnt, hbcnt, hcnt]
    omega

end OpenMLDBAggr

namespace OpenMLDBAggr

/-- One in-order live update on a bucket satisfying the invariant: the call
is exactly a rollover step (possibly trivial) followed by the bump and the
kernel fold, and the invariant is re-established at the new row bounds. -/
theorem update_step_char (cfg : AggrConfig) (key : String) (st : AggState)
    (tPrev : Int) (oPrev : Nat) (t : Int) (v : Option (Scalar cfg.aggr_col_type)) (o : Nat)
    (hts : cfg.ts_col_type = .kBigInt ∨ cfg.ts_col_type = .kTimestamp)
    (hW : 1 ≤ cfg.window_size)
    (hInv : Inv cfg st.buffer tPrev oPrev)
    (ht : tPrev < t) (ho : oPrev < o) :
    update cfg .kInited key st t v o false =
      ((updateAggrVal cfg v (bumpBuffer cfg t o (rolloverState cfg key t st).buffer)).1,
       { buffer :=
           (updateAggrVal cfg v (bumpBuffer cfg t o (rolloverState cfg key t st).buffer)).2,
         table := (rolloverState cfg key t st).table })
    ∧ Inv cfg
        (updateAggrVal cfg v (bumpBuffer cfg t o (rolloverState cfg key t st).buffer)).2 t o := by
  obtain ⟨hbeg0, hbegle, hbegend, hbinle, hnum⟩ := hInv
  have hts' : ¬ (cfg.ts_col_type ≠ DataType.kBigInt ∧ cfg.ts_col_type ≠ DataType.kTimestamp) := by
    rcases hts with h | h <;> simp [h]
  have hne : st.buffer.ts_begin ≠ -1 := by omega
  have hpre : preGuardState cfg key t st = rolloverState cfg key t st := by
    unfold preGuardState
    rw [initBuffer_skip cfg t st.buffer hne]
  obtain ⟨hbts, hbcnt, hbbin, hbval, hbnn, hbkey, hbend⟩ :=
    bumpBuffer_fields cfg t o (rolloverState cfg key t st).buffer
  obtain ⟨hfts, hftse, hfcnt, hfbin, hfkey⟩ :=
    updateAggrVal_frame cfg v (bumpBuffer cfg t o (rolloverState cfg key t st).buffer)
  have hR : 0 ≤ (rolloverState cfg key t st).buffer.ts_begin ∧
      (rolloverState cfg key t st).buffer.ts_begin ≤ t ∧
      (cfg.window_type = .kRowsRange →
        (rolloverState cfg key t st).buffer.ts_begin ≤
          (rolloverState cfg key t st).buffer.ts_end) ∧
      (rolloverState cfg key t st).buffer.binlog_offset ≤ o := by
    by_cases hfill : checkBufferFilled cfg t st.buffer.ts_end st.buffer.aggr_cnt = true
    · have hbufR : (rolloverState cfg key t st).buffer = reopenBuffer cfg st.buffer := by
        unfold rolloverState
        rw [if_pos hfill]
      obtain ⟨hrb, hrbin, _, _, _, _, hrend⟩ := reopenBuffer_fields cfg st.buffer
      obtain ⟨hc1, hc2⟩ := checkBufferFilled_true cfg t _ _ hfill
      rw [hbufR, hrb, hrbin, hrend]
      refine ⟨by omega, ?_, ?_, by omega⟩
      · rcases hwt : cfg.window_type with _ | _
        · have := hnum hwt
          omega
        · have := hc1 hwt
          omega
      · intro hwt
        rw [if_pos hwt]
        omega
    · have hbufR : (rolloverState cfg key t st).buffer = st.buffer := by
        unfold rolloverState
        rw [if_neg hfill]
      rw [hbufR]
      exact ⟨hbeg0, by omega, fun _ => hbegend, by omega⟩
  obtain ⟨hR0, hRt, hRend, hRbin⟩ := hR
  refine ⟨?_, ?_⟩
  · unfold update
    rw [if_neg (by simp), if_neg hts', hpre, if_neg (by omega), if_neg (by omega)]
  · refine ⟨?_, ?_, ?_, ?_, ?_⟩
    · rw [hfts, hbts]
      exact hR0
    · rw [hfts, hbts]
      exact hRt
    · rw [hfts, hftse, hbts, hbend]
      rcases hwt : cfg.window_type with _ | _
      · rw [if_pos rfl]
        exact hRt
      · rw [if_neg (by simp)]
        exact hRend hwt
    · rw [hfbin, hbbin]
    · intro hwt
      rw [hftse, hbend, if_pos hwt]

end OpenMLDBAggr

namespace OpenMLDBAggr

/-- Relation between a later and an earlier flushed row of the same stream:
the earlier offset is strictly below the later one. -/
def offsetStepRel (a b : FlushedRow) : Prop :=
  b.binlog_offset + 1 ≤ a.binlog_offset

/-- The invariant carried along a run of in-order updates: the bucket
invariant, strictly increasing binlog offsets down the flushed table, the
live bucket ahead of the newest flushed row, the live count mirrored in `k`,
and for row-count windows the bounds `1 ≤ k ≤ W` with every flushed row
carrying exactly `W` rows. -/
def RunInv (cfg : AggrConfig) (st : AggState) (tPrev : Int) (oPrev : Nat) (k : Nat) : Prop :=
  Inv cfg st.buffer tPrev oPrev
  ∧ List.Chain' offsetStepRel st.table
  ∧ (∀ h ∈ st.table.head?, h.binlog_offset + 1 ≤ st.buffer.binlog_offset)
  ∧ st.buffer.aggr_cnt = (k : Int)
  ∧ (cfg.window_type = .kRowsNum →
      1 ≤ k ∧ k ≤ cfg.window_size ∧
      ∀ r ∈ st.table, r.aggr_cnt = (cfg.window_size : Int))

theorem rolloverState_pos (cfg : AggrConfig) (key : String) (t : Int) (st : AggState)
    (hfill : checkBufferFilled cfg t st.buffer.ts_end st.buffer.aggr_cnt = true) :
    rolloverState cfg key t st =
      { buffer := reopenBuffer cfg st.buffer,
        table := match flushAggrBuffer cfg key st.buffer with
          | some row => row :: st.table
          | none => st.table } := by
  unfold rolloverState
  rw [if_pos hfill]

theorem rolloverState_neg (cfg : AggrConfig) (key : String) (t : Int) (st : AggState)
    (hfill : checkBufferFilled cfg t st.buffer.ts_end st.buffer.aggr_cnt = false) :
    rolloverState cfg key t st = st := by
  unfold rolloverState
  rw [if_neg (by simp [hfill])]

/-- The generic run lemma: from any state satisfying `RunInv`, an in-order
tail of rows preserves `RunInv`, and for row-count windows the number of
flushes and the live count follow the division bookkeeping. -/
theorem run_generic (cfg : AggrConfig) (key : String)
    (hts : cfg.ts_col_type = .kBigInt ∨ cfg.ts_col_type = .kTimestamp)
    (hW : 1 ≤ cfg.window_size) (henc : encodeOk cfg = true) :
    ∀ (rows : List (Int × Option (Scalar cfg.aggr_col_type) × Nat)) (st : AggState)
      (tPrev : Int) (oPrev k : Nat),
    RunInv cfg st tPrev oPrev k → chainFrom tPrev (oPrev + 1) rows = true →
    ∃ tP oP kP, RunInv cfg (runUpdates cfg key st rows) tP oP kP
      ∧ (cfg.window_type = .kRowsNum →
          kP = (k - 1 + rows.length) % cfg.window_size + 1
          ∧ (runUpdates cfg key st rows).table.length =
              st.table.length + (k - 1 + rows.length) / cfg.window_size) := by
  intro rows
  induction rows with
  | nil =>
      intro st tPrev oPrev k hRI _
      refine ⟨tPrev, oPrev, k, hRI, fun hwt => ?_⟩
      obtain ⟨hk1, hkW, _⟩ := hRI.2.2.2.2 hwt
      constructor
      · rw [List.length_nil, Nat.add_zero, Nat.mod_eq_of_lt (by omega)]
        omega
      · rw [List.length_nil, Nat.add_zero, Nat.div_eq_of_lt (by omega)]
        simp [runUpdates]
  | cons row rest ih =>
      obtain ⟨t, v, o⟩ := row
      intro st tPrev oPrev k hRI hchain
      simp only [chainFrom, Bool.and_eq_true, decide_eq_true_eq] at hchain
      obtain ⟨⟨ht, ho⟩, hch'⟩ := hchain
      obtain ⟨hInv, hchainT, hhead, hcnt, hnum⟩ := hRI
      obtain ⟨hstep, hInv'⟩ :=
        update_step_char cfg key st tPrev oPrev t v o hts hW hInv ht (by omega)
      have hrun : runUpdates cfg key st ((t, v, o) :: rest) =
          runUpdates cfg key (update cfg .kInited key st t v o false).2 rest := rfl
      obtain ⟨hbts, hbcnt, hbbin, hbval, hbnn, hbkey, hbend⟩ :=
        bumpBuffer_fields cfg t o (rolloverState cfg key t st).buffer
      obtain ⟨hfts, hftse, hfcnt, hfbin, hfkey⟩ :=
        updateAggrVal_frame cfg v (bumpBuffer cfg t o (rolloverState cfg key t st).buffer)
      by_cases hfill : checkBufferFilled cfg t st.buffer.ts_end st.buffer.aggr_cnt = true
      · -- rollover: a row is flushed and the bucket re-opens
        obtain ⟨enc, hencB⟩ := encodeOk_some cfg st.buffer henc
        obtain ⟨frow, hfrow⟩ : ∃ frow, flushAggrBuffer cfg key st.buffer = some frow := by
          unfold flushAggrBuffer
          rw [hencB]
          exact ⟨_, rfl⟩
        obtain ⟨_, _, hfrcnt, hfrbin⟩ := flushAggrBuffer_fields cfg key st.buffer frow hfrow
        have hroll := rolloverState_pos cfg key t st hfill
        have hrollT : (rolloverState cfg key t st).table = frow :: st.table := by
          rw [hroll]
          simp only [hfrow]
        have hrollB : (rolloverState cfg key t st).buffer = reopenBuffer cfg st.buffer := by
          rw [hroll]
        obtain ⟨_, _, hrcnt, _, _, _, _⟩ := reopenBuffer_fields cfg st.buffer
        have hst1 : (update cfg .kInited key st t v o false).2 =
            { buffer :=
                (updateAggrVal cfg v (bumpBuffer cfg t o (rolloverState cfg key t st).buffer)).2,
              table := frow :: st.table } := by
          rw [hstep]
          simp only [hrollT]
        have hRI1 : RunInv cfg (update cfg .kInited key st t v o false).2 t o 1 := by
          rw [hst1]
          refine ⟨hInv', ?_, ?_, ?_, ?_⟩
          · rw [List.chain'_cons']
            refine ⟨?_, hchainT⟩
            intro h hh
            have := hhead h hh
            unfold offsetStepRel
            omega
          · intro h hh
            simp only [List.head?_cons, Option.mem_def, Option.some.injEq] at hh
            subst hh
            rw [hfbin, hbbin]
            have : st.buffer.binlog_offset ≤ oPrev := hInv.2.2.2.1
            omega
          · rw [hfcnt, hbcnt, hrollB, hrcnt]
            omega
          · intro hwt
            refine ⟨le_refl 1, hW, ?_⟩
            intro r hr
            rcases List.mem_cons.mp hr with hr | hr
            · subst hr
              obtain ⟨hk1, hkW, _⟩ := hnum hwt
              have hge := (checkBufferFilled_true cfg t _ _ hfill).2 hwt
              rw [hcnt] at hge
              have hkeq : k = cfg.window_size := by omega
              rw [hfrcnt, hcnt, hkeq]
            · exact (hnum hwt).2.2 r hr
        obtain ⟨tP, oP, kP, hRIfin, hform⟩ := ih (update cfg .kInited key st t v o false).2 t o 1 hRI1 hch'
        refine ⟨tP, oP, kP, by rw [hrun]; exact hRIfin, fun hwt => ?_⟩
        obtain ⟨hf1, hf2⟩ := hform hwt
        obtain ⟨hk1, hkW, _⟩ := hnum hwt
        have hge := (checkBufferFilled_true cfg t _ _ hfill).2 hwt
        rw [hcnt] at hge
        have hkeq : k = cfg.window_size := by omega
        have harg : k - 1 + ((t, v, o) :: rest).length = cfg.window_size + rest.length := by
          simp only [List.length_cons]
          omega
        constructor
        · rw [hf1, harg, Nat.add_mod_left]
          simp
        · have hlen1 : (1 : Nat) - 1 + rest.length = rest.length := by omega
          rw [hrun, hf2, hst1, harg, hlen1]
          simp only [List.length_cons]
          rw [Nat.add_comm cfg.window_size rest.length,
            Nat.add_div_right _ (by omega : 0 < cfg.window_size)]
          generalize rest.length / cfg.window_size = q
          omega
      · -- no rollover: the row folds into the live bucket
        have hfill' : checkBufferFilled cfg t st.buffer.ts_end st.buffer.aggr_cnt = false := by
          simp only [Bool.not_eq_true] at hfill
          exact hfill
        have hroll := rolloverState_neg cfg key t st hfill'
        have hst1 : (update cfg .kInited key st t v o false).2 =
            { buffer :=
                (updateAggrVal cfg v (bumpBuffer cfg t o (rolloverState cfg key t st).buffer)).2,
              table := st.table } := by
          rw [hstep]
          simp only [hroll]
        have hRI1 : RunInv cfg (update cfg .kInited key st t v o false).2 t o (k + 1) := by
          rw [hst1]
          refine ⟨hInv', hchainT, ?_, ?_, ?_⟩
          · intro h hh
            have := hhead h hh
            have : st.buffer.binlog_offset ≤ oPrev := hInv.2.2.2.1
            rw [hfbin, hbbin]
            omega
          · rw [hfcnt, hbcnt, hroll, hcnt]
            push_cast
            ring
          · intro hwt
            obtain ⟨hk1, hkW, htab⟩ := hnum hwt
            have hlt : ¬ st.buffer.aggr_cnt ≥ (cfg.window_size : Int) := by
              intro hge
              have : checkBufferFilled cfg t st.buffer.ts_end st.buffer.aggr_cnt = true :=
                (checkBufferFilled_iff cfg t _ _).mpr (Or.inr ⟨hwt, hge⟩)
              rw [this] at hfill'
              exact absurd hfill' (by simp)
            rw [hcnt] at hlt
            refine ⟨by omega, by omega, htab⟩
        obtain ⟨tP, oP, kP, hRIfin, hform⟩ :=
          ih (update cfg .kInited key st t v o false).2 t o (k + 1) hRI1 hch'
        refine ⟨tP, oP, kP, by rw [hrun]; exact hRIfin, fun hwt => ?_⟩
        obtain ⟨hf1, hf2⟩ := hform hwt
        obtain ⟨hk1, hkW, _⟩ := hnum hwt
        have harg : k + 1 - 1 + rest.length = k - 1 + ((t, v, o) :: rest).length := by
          simp only [List.length_cons]
          omega
        constructor
        · rw [hf1, harg]
        · rw [hrun, hf2, hst1, harg]

end OpenMLDBAggr

namespace OpenMLDBAggr

/-- A full in-order run from the fresh state: the run invariant holds at the
end, and for row-count windows the flush count and live count follow the
division bookkeeping on `N - 1`. -/
theorem run_from_init (cfg : AggrConfig) (key : String)
    (hts : cfg.ts_col_type = .kBigInt ∨ cfg.ts_col_type = .kTimestamp)
    (hW : 1 ≤ cfg.window_size) (henc : encodeOk cfg = true)
    (rows : List (Int × Option (Scalar cfg.aggr_col_type) × Nat))
    (hchain : chainFrom (-1) 0 rows = true) (hne : rows ≠ []) :
    ∃ tP oP kP, RunInv cfg (runUpdates cfg key (initState key) rows) tP oP kP
      ∧ (cfg.window_type = .kRowsNum →
          kP = (rows.length - 1) % cfg.window_size + 1
          ∧ (runUpdates cfg key (initState key) rows).table.length =
              (rows.length - 1) / cfg.window_size) := by
  match rows with
  | [] => exact absurd rfl hne
  | (t, v, o) :: rest =>
      simp only [chainFrom, Bool.and_eq_true, decide_eq_true_eq] at hchain
      obtain ⟨⟨ht, _⟩, hch'⟩ := hchain
      obtain ⟨hstep, hInv1, hcnt1⟩ :=
        update_first_char cfg key t v o hts hW (by omega)
      have hRI1 : RunInv cfg (update cfg .kInited key (initState key) t v o false).2 t o 1 := by
        rw [hstep]
        exact ⟨hInv1, List.chain'_nil, by simp, by simpa using hcnt1,
          fun _ => ⟨le_refl 1, hW, by simp⟩⟩
      obtain ⟨tP, oP, kP, hRIfin, hform⟩ :=
        run_generic cfg key hts hW henc rest (update cfg .kInited key (initState key) t v o false).2
          t o 1 hRI1 hch'
      refine ⟨tP, oP, kP, hRIfin, fun hwt => ?_⟩
      obtain ⟨hf1, hf2⟩ := hform hwt
      have harg : (1 : Nat) - 1 + rest.length = ((t, v, o) :: rest).length - 1 := by
        simp only [List.length_cons]
        omega
      constructor
      · rw [hf1, harg]
      · have hrun : runUpdates cfg key (initState key) ((t, v, o) :: rest) =
            runUpdates cfg key (update cfg .kInited key (initState key) t v o false).2 rest := rfl
        rw [hrun, hf2, hstep, harg]
        simp

/-- C3 (amended): for a row-count window of size `W ≥ 1` fed `N ≥ 1` in-order
rows, exactly `(N - 1) / W` buckets have been flushed (the rollover check
runs before the fold, so the flush for a full bucket happens only when the
next row arrives), and every flushed bucket carries exactly `W` rows. -/
theorem C3_rowcount_flush_count (cfg : AggrConfig) (key : String)
    (rows : List (Int × Option (Scalar cfg.aggr_col_type) × Nat))
    (hwt : cfg.window_type = .kRowsNum)
    (hts : cfg.ts_col_type = .kBigInt ∨ cfg.ts_col_type = .kTimestamp)
    (hW : 1 ≤ cfg.window_size) (henc : encodeOk cfg = true)
    (hchain : chainFrom (-1) 0 rows = true) (hne : rows ≠ []) :
    (runUpdates cfg key (initState key) rows).table.length =
      (rows.length - 1) / cfg.window_size
    ∧ ∀ r ∈ (runUpdates cfg key (initState key) rows).table,
        r.aggr_cnt = (cfg.window_size : Int) := by
  obtain ⟨tP, oP, kP, hRIfin, hform⟩ :=
    run_from_init cfg key hts hW henc rows hchain hne
  exact ⟨(hform hwt).2, (hRIfin.2.2.2.2 hwt).2.2⟩

/-- Configuration of the C3 counterexample: SUM over int with a row-count
window of one row. -/
def w1Cfg : AggrConfig :=
  { aggr_type := .kSum, aggr_col_type := .kInt, ts_col_type := .kTimestamp,
    window_type := .kRowsNum, window_size := 1 }

/-- Counterexample to C3 as stated: feeding one in-order row (N = 1) into a
row-count window of size W = 1 flushes no bucket at all, while the claimed
count is N / W = 1. -/
theorem C3_rowcount_flush_count_counterexample :
    (runUpdates w1Cfg "k" (initState "k")
        [((0 : Int), (some (5 : Int) : Option (Scalar w1Cfg.aggr_col_type)), (0 : Nat))]).table.length = 0
    ∧ ([((0 : Int), (some (5 : Int) : Option (Scalar w1Cfg.aggr_col_type)), (0 : Nat))].length) /
        w1Cfg.window_size = 1 := by
  decide

/-- Configuration used by the C3 and C1 witnesses: SUM over int with a
row-count window of two rows. -/
def sumIntW2Cfg : AggrConfig :=
  { aggr_type := .kSum, aggr_col_type := .kInt, ts_col_type := .kTimestamp,
    window_type := .kRowsNum, window_size := 2 }

/-- Three concrete in-order rows used by the C3 witness. -/
def c3Rows : List (Int × Option (Scalar sumIntW2Cfg.aggr_col_type) × Nat) :=
  [(0, (some (3 : Int) : Option (Scalar sumIntW2Cfg.aggr_col_type)), 0),
   (1, (some (4 : Int) : Option (Scalar sumIntW2Cfg.aggr_col_type)), 1),
   (2, (some (5 : Int) : Option (Scalar sumIntW2Cfg.aggr_col_type)), 2)]

/-- Witness for the amended C3 at window size 2 and three concrete rows:
one flush of a bucket with exactly two rows. -/
theorem C3_rowcount_flush_count_witness :
    (runUpdates sumIntW2Cfg "k" (initState "k") c3Rows).table.length =
      (c3Rows.length - 1) / sumIntW2Cfg.window_size
    ∧ ∀ r ∈ (runUpdates sumIntW2Cfg "k" (initState "k") c3Rows).table,
        r.aggr_cnt = (sumIntW2Cfg.window_size : Int) :=
  C3_rowcount_flush_count sumIntW2Cfg "k" c3Rows (by decide) (by decide) (by decide)
    (by decide) (by decide) (by simp [c3Rows])

end OpenMLDBAggr

namespace OpenMLDBAggr

/-- C2: the flush and re-open lineage of binlog offsets.  A re-opened bucket
starts at the old `ts_end + 1` with binlog offset `old + 1`; a flushed row
always carries the binlog offset of the bucket it snapshots, and every
in-bucket fold stamps the folded row offset into the bucket, so with
strictly increasing offsets that published value is the highest offset
folded into the bucket; a rollover of a filled bucket flushes exactly one
row (when the encode succeeds) and installs the re-opened bucket; and along
any in-order run from a fresh state, any two consecutive flushed rows R1
then R2 satisfy R2.binlog_offset at least R1.binlog_offset + 1. -/
theorem C2_offset_lineage :
    (∀ (cfg : AggrConfig) (b : AggrBuffer),
        (reopenBuffer cfg b).ts_begin = b.ts_end + 1 ∧
        (reopenBuffer cfg b).binlog_offset = b.binlog_offset + 1)
    ∧ (∀ (cfg : AggrConfig) (key : String) (b : AggrBuffer) (row : FlushedRow),
        flushAggrBuffer cfg key b = some row → row.binlog_offset = b.binlog_offset)
    ∧ (∀ (cfg : AggrConfig) (t : Int) (o : Nat) (b : AggrBuffer)
          (v : Option (Scalar cfg.aggr_col_type)),
        (updateAggrVal cfg v (bumpBuffer cfg t o b)).2.binlog_offset = o)
    ∧ (∀ (cfg : AggrConfig) (key : String) (t : Int) (st : AggState),
        checkBufferFilled cfg t st.buffer.ts_end st.buffer.aggr_cnt = true →
        encodeOk cfg = true →
        ∃ row, flushAggrBuffer cfg key st.buffer = some row ∧
          row.binlog_offset = st.buffer.binlog_offset ∧
          (rolloverState cfg key t st).table = row :: st.table ∧
          (rolloverState cfg key t st).buffer = reopenBuffer cfg st.buffer)
    ∧ (∀ (cfg : AggrConfig) (key : String)
          (rows : List (Int × Option (Scalar cfg.aggr_col_type) × Nat)),
        (cfg.ts_col_type = .kBigInt ∨ cfg.ts_col_type = .kTimestamp) →
        1 ≤ cfg.window_size → encodeOk cfg = true →
        chainFrom (-1) 0 rows = true →
        List.Chain' offsetStepRel (runUpdates cfg key (initState key) rows).table) := by
  refine ⟨?_, ?_, ?_, ?_, ?_⟩
  · intro cfg b
    obtain ⟨h1, h2, _⟩ := reopenBuffer_fields cfg b
    exact ⟨h1, h2⟩
  · intro cfg key b row h
    exact (flushAggrBuffer_fields cfg key b row h).2.2.2
  · intro cfg t o b v
    obtain ⟨_, _, _, hfbin, _⟩ := updateAggrVal_frame cfg v (bumpBuffer cfg t o b)
    rw [hfbin]
    exact (bumpBuffer_fields cfg t o b).2.2.1
  · intro cfg key t st hfill henc
    obtain ⟨enc, hencB⟩ := encodeOk_some cfg st.buffer henc
    obtain ⟨row, hrow⟩ : ∃ row, flushAggrBuffer cfg key st.buffer = some row := by
      unfold flushAggrBuffer
      rw [hencB]
      exact ⟨_, rfl⟩
    refine ⟨row, hrow, (flushAggrBuffer_fields cfg key st.buffer row hrow).2.2.2, ?_, ?_⟩
    · rw [rolloverState_pos cfg key t st hfill]
      simp only [hrow]
    · rw [rolloverState_pos cfg key t st hfill]
  · intro cfg key rows hts hW henc hchain
    rcases hrows : rows with _ | ⟨r, rest⟩
    · simp [runUpdates, initState]
    · subst hrows
      obtain ⟨tP, oP, kP, hRIfin, _⟩ :=
        run_from_init cfg key hts hW henc (r :: rest) hchain (by simp)
      exact hRIfin.2.1

/-- Witness for C2's run-level conjunct: the three-row window-2 run flushes
rows with strictly increasing offsets. -/
theorem C2_offset_lineage_witness :
    List.Chain' offsetStepRel
      (runUpdates sumIntW2Cfg "k" (initState "k") c3Rows).table :=
  C2_offset_lineage.2.2.2.2 sumIntW2Cfg "k" c3Rows (by decide) (by decide) (by decide)
    (by decide)

end OpenMLDBAggr

namespace OpenMLDBAggr

/-! ### C1: SUM correctness over integer columns -/

/-- The integer column families accepted by the SUM kernel (all widened to
i64). -/
def intColType (ct : DataType) : Prop :=
  ct = .kSmallInt ∨ ct = .kInt ∨ ct = .kBigInt ∨ ct = .kTimestamp

instance (ct : DataType) : Decidable (intColType ct) := by
  unfold intColType
  infer_instance

/-- The integer denoted by an optional column value of an integer family,
with NULL denoting zero contribution. -/
def scalarInt (ct : DataType) (v : Option (Scalar ct)) : Int :=
  match ct, v with
  | _, none => 0
  | .kSmallInt, some x => x
  | .kInt, some x => x
  | .kBigInt, some x => x
  | .kTimestamp, some x => x
  | .kDate, some x => x
  | _, some _ => 0

/-- The i64 read back from an encoded field 4, zero for NULL or non-integer
encodings. -/
def encValInt : Option EncVal → Int
  | some (.eInt x) => x
  | _ => 0

/-- The sum of the encoded `aggr_val` fields of a list of flushed rows. -/
def tableSumInt (l : List FlushedRow) : Int :=
  (l.map (fun r => encValInt r.aggr_val)).sum

/-- The exact integer sum of the aggregate column values of a list of rows. -/
def rowsSumInt (ct : DataType) : List (Int × Option (Scalar ct) × Nat) → Int
  | [] => 0
  | (_, v, _) :: rest => scalarInt ct v + rowsSumInt ct rest

theorem sum_fold_vlong (cfg : AggrConfig) (hsum : cfg.aggr_type = .kSum)
    (hct : intColType cfg.aggr_col_type) (v : Option (Scalar cfg.aggr_col_type))
    (b : AggrBuffer) :
    (updateAggrVal cfg v b).2.aggr_val.vlong =
      b.aggr_val.vlong + scalarInt cfg.aggr_col_type v := by
  obtain ⟨at', ct, tt, wt, ws, ca⟩ := cfg
  simp only at hsum hct v ⊢
  subst hsum
  rcases hct with h | h | h | h <;> subst h <;> rcases v with _ | x <;>
    simp [updateAggrVal, sumUpdateAggrVal, scalarInt]

theorem sum_encode (cfg : AggrConfig) (b : AggrBuffer) (hsum : cfg.aggr_type = .kSum)
    (hct : intColType cfg.aggr_col_type) :
    encodeAggrVal cfg b = some (.eInt b.aggr_val.vlong) := by
  obtain ⟨at', ct, tt, wt, ws, ca⟩ := cfg
  simp only at hsum hct ⊢
  subst hsum
  rcases hct with h | h | h | h <;> subst h <;> rfl

theorem sum_flush (cfg : AggrConfig) (key : String) (b : AggrBuffer)
    (hsum : cfg.aggr_type = .kSum) (hct : intColType cfg.aggr_col_type) :
    ∃ row, flushAggrBuffer cfg key b = some row ∧
      row.aggr_val = some (.eInt b.aggr_val.vlong) := by
  have he := sum_encode cfg b hsum hct
  unfold flushAggrBuffer
  rw [he]
  exact ⟨_, rfl, by simp [hsum]⟩

/-- The SUM run lemma: along any in-order tail from an invariant state, the
sum of the encoded values of the flushed rows plus the live accumulator
grows by exactly the sum of the fed values. -/
theorem run_sum (cfg : AggrConfig) (key : String)
    (hsum : cfg.aggr_type = .kSum) (hct : intColType cfg.aggr_col_type)
    (hts : cfg.ts_col_type = .kBigInt ∨ cfg.ts_col_type = .kTimestamp)
    (hW : 1 ≤ cfg.window_size) :
    ∀ (rows : List (Int × Option (Scalar cfg.aggr_col_type) × Nat)) (st : AggState)
      (tPrev : Int) (oPrev : Nat),
    Inv cfg st.buffer tPrev oPrev → chainFrom tPrev (oPrev + 1) rows = true →
    tableSumInt (runUpdates cfg key st rows).table +
      (runUpdates cfg key st rows).buffer.aggr_val.vlong
    = tableSumInt st.table + st.buffer.aggr_val.vlong +
        rowsSumInt cfg.aggr_col_type rows := by
  intro rows
  induction rows with
  | nil =>
      intro st tPrev oPrev _ _
      simp [runUpdates, rowsSumInt]
  | cons row rest ih =>
      obtain ⟨t, v, o⟩ := row
      intro st tPrev oPrev hInv hchain
      simp only [chainFrom, Bool.and_eq_true, decide_eq_true_eq] at hchain
      obtain ⟨⟨ht, ho⟩, hch'⟩ := hchain
      obtain ⟨hstep, hInv'⟩ :=
        update_step_char cfg key st tPrev oPrev t v o hts hW hInv ht (by omega)
      have hrun : runUpdates cfg key st ((t, v, o) :: rest) =
          runUpdates cfg key (update cfg .kInited key st t v o false).2 rest := rfl
      obtain ⟨_, _, _, hbval, _, _, _⟩ :=
        bumpBuffer_fields cfg t o (rolloverState cfg key t st).buffer
      have hfold := sum_fold_vlong cfg hsum hct v
        (bumpBuffer cfg t o (rolloverState cfg key t st).buffer)
      rw [hrun]
      by_cases hfill : checkBufferFilled cfg t st.buffer.ts_end st.buffer.aggr_cnt = true
      · obtain ⟨frow, hfrow, hfval⟩ := sum_flush cfg key st.buffer hsum hct
        have hrollT : (rolloverState cfg key t st).table = frow :: st.table := by
          rw [rolloverState_pos cfg key t st hfill]
          simp only [hfrow]
        have hrollB : (rolloverState cfg key t st).buffer = reopenBuffer cfg st.buffer := by
          rw [rolloverState_pos cfg key t st hfill]
        obtain ⟨_, _, _, hrval, _, _, _⟩ := reopenBuffer_fields cfg st.buffer
        have hstep2 : (update cfg .kInited key st t v o false).2 =
            { buffer :=
                (updateAggrVal cfg v (bumpBuffer cfg t o (rolloverState cfg key t st).buffer)).2,
              table := frow :: st.table } := by
          rw [hstep]
          simp only [hrollT]
        rw [hstep2]
        rw [ih (AggState.mk
              (updateAggrVal cfg v (bumpBuffer cfg t o (rolloverState cfg key t st).buffer)).2
              (frow :: st.table)) t o hInv' hch']
        simp only [tableSumInt, List.map_cons, List.sum_cons, hfval, encValInt]
        rw [hfold, hbval, hrollB, hrval]
        simp only [rowsSumInt]
        ring
      · have hfill' : checkBufferFilled cfg t st.buffer.ts_end st.buffer.aggr_cnt = false := by
          simp only [Bool.not_eq_true] at hfill
          exact hfill
        have hroll := rolloverState_neg cfg key t st hfill'
        have hstep2 : (update cfg .kInited key st t v o false).2 =
            { buffer :=
                (updateAggrVal cfg v (bumpBuffer cfg t o (rolloverState cfg key t st).buffer)).2,
              table := st.table } := by
          rw [hstep]
          simp only [hroll]
        rw [hstep2]
        rw [ih (AggState.mk
              (updateAggrVal cfg v (bumpBuffer cfg t o (rolloverState cfg key t st).buffer)).2
              st.table) t o hInv' hch']
        rw [hfold, hbval, hroll]
        simp only [rowsSumInt]
        ring

end OpenMLDBAggr

namespace OpenMLDBAggr

/-- C1: for a SUM aggregator over an integer-family column (values widened to
i64), feeding any in-order sequence of rows with strictly increasing
timestamps and offsets through Update makes the sum of the encoded
`aggr_val` fields of all flushed rows plus the live bucket accumulator equal
the exact integer sum of the fed values (a NULL value contributes zero, so
the all-non-null case of the claim is the instance where every value is
`some`). -/
theorem C1_sum_exact (cfg : AggrConfig) (key : String)
    (rows : List (Int × Option (Scalar cfg.aggr_col_type) × Nat))
    (hsum : cfg.aggr_type = .kSum) (hct : intColType cfg.aggr_col_type)
    (hts : cfg.ts_col_type = .kBigInt ∨ cfg.ts_col_type = .kTimestamp)
    (hW : 1 ≤ cfg.window_size) (hchain : chainFrom (-1) 0 rows = true) :
    tableSumInt (runUpdates cfg key (initState key) rows).table +
      (runUpdates cfg key (initState key) rows).buffer.aggr_val.vlong
    = rowsSumInt cfg.aggr_col_type rows := by
  rcases rows with _ | ⟨⟨t, v, o⟩, rest⟩
  · simp [runUpdates, initState, tableSumInt, rowsSumInt]
  · simp only [chainFrom, Bool.and_eq_true, decide_eq_true_eq] at hchain
    obtain ⟨⟨ht, _⟩, hch'⟩ := hchain
    obtain ⟨hstep, hInv1, _⟩ := update_first_char cfg key t v o hts hW (by omega)
    have hrun : runUpdates cfg key (initState key) ((t, v, o) :: rest) =
        runUpdates cfg key (update cfg .kInited key (initState key) t v o false).2 rest := rfl
    rw [hrun, hstep]
    rw [run_sum cfg key hsum hct hts hW rest
      (AggState.mk
        (updateAggrVal cfg v (bumpBuffer cfg t o (initBuffer cfg t (initState key).buffer))).2
        []) t o hInv1 hch']
    obtain ⟨_, _, _, hbval, _, _, _⟩ :=
      bumpBuffer_fields cfg t o (initBuffer cfg t (initState key).buffer)
    have hfold := sum_fold_vlong cfg hsum hct v
      (bumpBuffer cfg t o (initBuffer cfg t (initState key).buffer))
    obtain ⟨_, _, _, hival, _, _, _⟩ := initBuffer_first_fields cfg key t
    rw [hfold, hbval, hival]
    simp only [tableSumInt, rowsSumInt, List.map_nil, List.sum_nil]
    ring

/-- Witness for C1 at window size 2 over three concrete int rows 3, 4, 5:
flushed plus live equals 12. -/
theorem C1_sum_exact_witness :
    tableSumInt (runUpdates sumIntW2Cfg "k" (initState "k") c3Rows).table +
      (runUpdates sumIntW2Cfg "k" (initState "k") c3Rows).buffer.aggr_val.vlong
    = rowsSumInt sumIntW2Cfg.aggr_col_type c3Rows :=
  C1_sum_exact sumIntW2Cfg "k" c3Rows (by decide) (by decide) (by decide) (by decide)
    (by decide)

end OpenMLDBAggr
